import Mathlib

set_option autoImplicit false

namespace Viscum

/-- Python strings are modelled as lists of characters. -/
abbrev Name := List Char

/-- Decimal digit character for a value below ten. -/
def digitChar (n : Nat) : Char :=
  match n with
  | 0 => '0'
  | 1 => '1'
  | 2 => '2'
  | 3 => '3'
  | 4 => '4'
  | 5 => '5'
  | 6 => '6'
  | 7 => '7'
  | 8 => '8'
  | _ => '9'

/-- Numeric value of a digit character, as the Python int conversion sees it. -/
def digitVal (c : Char) : Nat := c.toNat - 48

/-- Fuel-indexed decimal rendering of a natural number (most significant digit first). -/
def natToCharsAux : Nat → Nat → List Char
  | 0, _ => []
  | fuel + 1, n =>
    if n < 10 then [digitChar n]
    else natToCharsAux fuel (n / 10) ++ [digitChar (n % 10)]

/-- Decimal rendering of a natural number, as the Python str form of an int. -/
def natToChars (n : Nat) : Name := natToCharsAux (n + 1) n

/-- Decimal parsing of a digit string, as the Python int conversion. -/
def charsToNat (l : List Char) : Nat := l.foldl (fun a c => a * 10 + digitVal c) 0

theorem digitVal_digitChar {n : Nat} (h : n < 10) : digitVal (digitChar n) = n := by
  interval_cases n <;> decide

theorem isDigit_digitChar {n : Nat} (h : n < 10) : (digitChar n).isDigit = true := by
  interval_cases n <;> decide

theorem charsToNat_append_digit (l : List Char) (c : Char) :
    charsToNat (l ++ [c]) = charsToNat l * 10 + digitVal c := by
  simp [charsToNat, List.foldl_append]

theorem charsToNat_natToCharsAux :
    ∀ fuel n, n < fuel → charsToNat (natToCharsAux fuel n) = n := by
  intro fuel
  induction fuel with
  | zero => intro n h; omega
  | succ f ih =>
    intro n h
    by_cases h10 : n < 10
    · simp [natToCharsAux, h10, charsToNat, digitVal_digitChar h10]
    · have hd : n / 10 < f := by omega
      simp [natToCharsAux, h10, charsToNat_append_digit, ih _ hd,
            digitVal_digitChar (Nat.mod_lt n (by omega))]
      omega

theorem charsToNat_natToChars (n : Nat) : charsToNat (natToChars n) = n :=
  charsToNat_natToCharsAux (n + 1) n (Nat.lt_succ_self n)

theorem natToCharsAux_all_digits :
    ∀ fuel n, n < fuel → ∀ c ∈ natToCharsAux fuel n, c.isDigit = true := by
  intro fuel
  induction fuel with
  | zero => intro n h; omega
  | succ f ih =>
    intro n h c hc
    by_cases h10 : n < 10
    · simp [natToCharsAux, h10] at hc
      subst hc; exact isDigit_digitChar h10
    · have hd : n / 10 < f := by omega
      simp [natToCharsAux, h10] at hc
      rcases hc with hc | hc
      · exact ih _ hd c hc
      · subst hc; exact isDigit_digitChar (Nat.mod_lt n (by omega))

theorem natToChars_all_digits (n : Nat) : ∀ c ∈ natToChars n, c.isDigit = true :=
  natToCharsAux_all_digits (n + 1) n (Nat.lt_succ_self n)

theorem natToCharsAux_ne_nil : ∀ fuel n, n < fuel → natToCharsAux fuel n ≠ [] := by
  intro fuel
  induction fuel with
  | zero => intro n h; omega
  | succ f _ =>
    intro n _
    by_cases h10 : n < 10 <;> simp [natToCharsAux, h10]

theorem natToChars_ne_nil (n : Nat) : natToChars n ≠ [] :=
  natToCharsAux_ne_nil (n + 1) n (Nat.lt_succ_self n)

/-- Attempted match of the regular expression base-([0-9]+) against the start of a
name, as in handle_multiple_instance: the pattern is anchored at the start but the
name may continue arbitrarily after the greedy digit run.  Returns the parsed value
of the digit group when the pattern matches. -/
def matchSuffix (base m : Name) : Option Nat :=
  if (base ++ ['-']).isPrefixOf m then
    let ds := (m.drop (base.length + 1)).takeWhile (fun c => c.isDigit)
    if ds.isEmpty then none else some (charsToNat ds)
  else none

/-- Full-pattern variant used only to state the rule of the specification: the whole
name must be the base, a dash, and digits, with nothing after. -/
def matchSuffixFull (base m : Name) : Option Nat :=
  if (base ++ ['-']).isPrefixOf m then
    let rest := m.drop (base.length + 1)
    if rest.isEmpty then none
    else if rest.all (fun c => c.isDigit) then some (charsToNat rest) else none
  else none

theorem matchSuffix_self (b : Name) : matchSuffix b b = none := by
  have hp : (b ++ ['-']).isPrefixOf b = false := by
    by_contra h
    rw [Bool.not_eq_false] at h
    have hl := (List.isPrefixOf_iff_prefix.mp h).length_le
    simp at hl
  simp [matchSuffix, hp]

theorem takeWhile_eq_self_of_all {p : Char → Bool} :
    ∀ l : List Char, (∀ c ∈ l, p c = true) → l.takeWhile p = l := by
  intro l
  induction l with
  | nil => intro _; rfl
  | cons a t ih =>
    intro h
    have ha := h a (by simp)
    simp [List.takeWhile, ha, ih (fun c hc => h c (by simp [hc]))]

theorem matchSuffix_append (b : Name) (k : Nat) :
    matchSuffix b (b ++ '-' :: natToChars k) = some k := by
  have hassoc : b ++ '-' :: natToChars k = (b ++ ['-']) ++ natToChars k := by simp
  have hp : (b ++ ['-']).isPrefixOf (b ++ '-' :: natToChars k) = true := by
    rw [hassoc]
    exact List.isPrefixOf_iff_prefix.mpr (List.prefix_append _ _)
  have hdrop : (b ++ '-' :: natToChars k).drop (b.length + 1) = natToChars k := by
    rw [hassoc]
    have : (b ++ ['-']).length = b.length + 1 := by simp
    rw [← this, List.drop_left]
  have htake : (natToChars k).takeWhile (fun c => c.isDigit) = natToChars k :=
    takeWhile_eq_self_of_all _ (natToChars_all_digits k)
  simp [matchSuffix, hp, hdrop, htake, natToChars_ne_nil k, List.isEmpty_iff,
        charsToNat_natToChars]

theorem ne_of_matchSuffix_none {b m : Name} (h : matchSuffix b m = none) (k : Nat) :
    m ≠ b ++ '-' :: natToChars k := by
  intro he
  rw [he, matchSuffix_append] at h
  exact Option.some_ne_none _ h

theorem append_digits_ne_base (b : Name) (k : Nat) : b ++ '-' :: natToChars k ≠ b := by
  intro h
  have := congrArg List.length h
  simp at this

theorem append_digits_inj {b : Name} {k₁ k₂ : Nat}
    (h : b ++ '-' :: natToChars k₁ = b ++ '-' :: natToChars k₂) : k₁ = k₂ := by
  have h₂ := List.append_cancel_left h
  have h₃ : natToChars k₁ = natToChars k₂ := by
    injection h₂
  have := congrArg charsToNat h₃
  rwa [charsToNat_natToChars, charsToNat_natToChars] at this

/-- Translation of the helper handle_multiple_instance: collect the digit-group
values of loaded names matching base-([0-9]+) at their start, return 1 when none
match, else the last element of the ascending sort plus one. -/
def handle_multiple_instance (module_name : Name) (loaded_module_list : List Name) : Nat :=
  let instance_list := loaded_module_list.filterMap (matchSuffix module_name)
  if instance_list.isEmpty then 1
  else (List.insertionSort (· ≤ ·) instance_list).getLastD 0 + 1

/-- The suffix rule in the words of the specification, except that a name counts when the
pattern base-digits matches a prefix of it (the regular expression is not anchored at
the end): one if no name matches, else the maximum matched suffix plus one. -/
def spec_suffix_rule_regex (base : Name) (loaded : List Name) : Nat :=
  let s := loaded.filterMap (matchSuffix base)
  if s.isEmpty then 1 else s.foldl max 0 + 1

/-- The suffix rule exactly in the words of the specification: only names that are
entirely base, dash, digits count. -/
def spec_suffix_rule (base : Name) (loaded : List Name) : Nat :=
  let s := loaded.filterMap (matchSuffixFull base)
  if s.isEmpty then 1 else s.foldl max 0 + 1

theorem getLastD_mem : ∀ (s : List Nat) (d : Nat), s ≠ [] → s.getLastD d ∈ s := by
  intro s
  induction s with
  | nil => intro d h; exact absurd rfl h
  | cons a t ih =>
    intro d _
    rw [List.getLastD_cons]
    cases t with
    | nil => simp [List.getLastD]
    | cons b t2 =>
      exact List.mem_cons_of_mem a (ih a (by simp))

theorem sorted_getLastD_bound :
    ∀ (s : List Nat), s.Sorted (· ≤ ·) → ∀ d x, x ∈ s → x ≤ s.getLastD d := by
  intro s
  induction s with
  | nil => intro _ d x hx; simp at hx
  | cons a t ih =>
    intro hs d x hx
    rcases List.sorted_cons.mp hs with ⟨hall, ht⟩
    rw [List.getLastD_cons]
    cases t with
    | nil =>
      rcases List.mem_cons.mp hx with rfl | h2
      · simp [List.getLastD]
      · simp at h2
    | cons b t2 =>
      rcases List.mem_cons.mp hx with rfl | hx2
      · exact hall _ (getLastD_mem (b :: t2) x (by simp))
      · exact ih ht a x hx2

theorem foldl_max_le : ∀ (l : List Nat) (a b : Nat), a ≤ b → (∀ x ∈ l, x ≤ b) →
    l.foldl max a ≤ b := by
  intro l
  induction l with
  | nil => intro a b h _; simpa using h
  | cons c t ih =>
    intro a b h hall
    simp only [List.foldl_cons]
    exact ih _ _ (by
      have := hall c (by simp)
      omega) (fun x hx => hall x (by simp [hx]))

theorem le_foldl_max : ∀ (l : List Nat) (a : Nat), a ≤ l.foldl max a := by
  intro l
  induction l with
  | nil => intro a; simp
  | cons c t ih =>
    intro a
    simp only [List.foldl_cons]
    have := ih (max a c)
    omega

theorem mem_le_foldl_max : ∀ (l : List Nat) (a : Nat), ∀ x ∈ l, x ≤ l.foldl max a := by
  intro l
  induction l with
  | nil => intro a x hx; simp at hx
  | cons c t ih =>
    intro a x hx
    simp only [List.foldl_cons]
    rcases List.mem_cons.mp hx with rfl | hx2
    · have := le_foldl_max t (max a x)
      omega
    · exact ih _ x hx2

theorem sortedLast_eq_foldl_max (l : List Nat) (h : ¬ l.isEmpty) :
    (List.insertionSort (· ≤ ·) l).getLastD 0 = l.foldl max 0 := by
  have hperm := List.perm_insertionSort (· ≤ ·) l
  have hsorted := List.sorted_insertionSort (· ≤ ·) l
  have hne : List.insertionSort (· ≤ ·) l ≠ [] := by
    intro he
    have hlen := hperm.length_eq
    rw [he] at hlen
    rw [List.isEmpty_iff] at h
    exact h (List.eq_nil_of_length_eq_zero hlen.symm)
  apply Nat.le_antisymm
  · have hmem := getLastD_mem _ 0 hne
    have hmem2 := hperm.mem_iff.mp hmem
    exact mem_le_foldl_max l 0 _ hmem2
  · apply foldl_max_le
    · exact Nat.zero_le _
    · intro x hx
      exact sorted_getLastD_bound _ hsorted 0 x (hperm.mem_iff.mpr hx)

theorem handle_multiple_instance_eq_spec_regex (base : Name) (loaded : List Name) :
    handle_multiple_instance base loaded = spec_suffix_rule_regex base loaded := by
  unfold handle_multiple_instance spec_suffix_rule_regex
  by_cases h : (loaded.filterMap (matchSuffix base)).isEmpty
  · simp [h]
  · simp only [h, if_neg, Bool.false_eq_true, not_false_eq_true, if_false]
    rw [sortedLast_eq_foldl_max _ h]

/-- Association lists model Python dictionaries: insertion order is kept, keys are
unique when built through assignment, lookup finds the entry with the given key. -/
def alookup {V : Type} (k : Name) : List (Name × V) → Option V
  | [] => none
  | (k2, v) :: t => if k2 = k then some v else alookup k t

/-- Membership of a key in a dictionary. -/
def amem {V : Type} (k : Name) (l : List (Name × V)) : Bool :=
  (alookup k l).isSome

/-- Dictionary assignment: replace the value of an existing key in place, or append
the new pair at the end. -/
def ainsert {V : Type} (k : Name) (v : V) : List (Name × V) → List (Name × V)
  | [] => [(k, v)]
  | (k2, v2) :: t => if k2 = k then (k2, v) :: t else (k2, v2) :: ainsert k v t

/-- Dictionary deletion of a key. -/
def aerase {V : Type} (k : Name) : List (Name × V) → List (Name × V)
  | [] => []
  | (k2, v2) :: t => if k2 = k then t else (k2, v2) :: aerase k t

/-- Keys of a dictionary, in order. -/
def akeys {V : Type} (l : List (Name × V)) : List Name := l.map (fun p => p.1)

/-- The actions a hook attachment can request, from ModuleManagerHookActions. -/
inductive HookAction
  | noAction
  | loadAction
  | unloadAction
deriving DecidableEq, Repr

/-- A module class object as the manager sees it: the declared type name, the
capability flag list (flag 0 is MultiInstanceAllowed) and the optional fixed
multi-instance suffix returned by get_multi_inst_suffix. -/
structure ModClass where
  typeName : Name
  capabilities : List Nat
  multiInstSuffix : Option Name
deriving DecidableEq, Repr

/-- The MultiInstanceAllowed capability flag value. -/
def multiInstanceAllowed : Nat := 0

/-- A live module instance record: its declared type and the loaded_by construction
argument injected by the manager at load time. -/
structure ModInstance where
  typeName : Name
  loadedBy : Name
deriving DecidableEq, Repr

/-- A callback function object; the owner names the instance whose bound method it
is, which the manager never inspects (it only compares callbacks for equality). -/
structure Callback where
  owner : Name
  fnId : Nat
deriving DecidableEq, Repr

/-- The argument slot of a hook attachment: a string (an instance name), a module
class object, or Python None.  Equality between different shapes is always false,
as for the corresponding Python values. -/
inductive HookArg
  | argStr (s : Name)
  | argCls (c : ModClass)
  | argNone
deriving DecidableEq, Repr

/-- The HookAttacher named tuple: callback, action, argument. -/
structure HookAttacher where
  callback : Callback
  action : HookAction
  argument : HookArg
deriving DecidableEq, Repr

/-- A ModuleManagerHook: its owner and the ordered attachment list. -/
structure Hook where
  owner : Name
  attached_callbacks : List HookAttacher
deriving DecidableEq, Repr

/-- ModuleManagerHook.attach_callback: append the attachment unless an equal one is
already attached. -/
def Hook.attach_callback (h : Hook) (c : HookAttacher) : Hook :=
  if c ∈ h.attached_callbacks then h
  else { h with attached_callbacks := h.attached_callbacks ++ [c] }

/-- ModuleManagerHook.detach_callback: remove the attachment if present. -/
def Hook.detach_callback (h : Hook) (c : HookAttacher) : Hook :=
  if c ∈ h.attached_callbacks then
    { h with attached_callbacks := h.attached_callbacks.erase c }
  else h

/-- ModuleManagerHook.find_callback_by_argument: all attachments whose argument
equals the one given, in attachment order. -/
def Hook.find_callback_by_argument (h : Hook) (argument : HookArg) : List HookAttacher :=
  h.attached_callbacks.filter (fun cb => cb.argument == argument)

/-- A ModuleManagerMethod named tuple: the callback (by identifier) and the owner
that installed it. -/
structure MMethod where
  call : Nat
  owner : Name
deriving DecidableEq, Repr

/-- Reasons delivered to an instance through handler_communicate. -/
inductive Reason
  | provider_unloaded
  | call_method_failed
  | attach_hook_failed
  | load_module_failed
  | unload_module_failed
  | install_hook_failed
  | install_method_failed
  | install_interrupt_failed
deriving DecidableEq, Repr

/-- Observable events recorded while the manager runs: asynchronous communications
to instances, callback and interrupt invocations, and per-attachment error logs. -/
inductive Event
  | comm (inst : Name) (reason : Reason)
  | cbInvoked (cb : Callback)
  | interruptInvoked (fnId : Nat)
  | errorLogged
deriving DecidableEq, Repr

/-- The exception kinds the manager raises. -/
inductive MMErr
  | moduleLoadError
  | moduleAlreadyLoaded
  | moduleNotLoaded
  | cannotUnload
  | hookNotAvailable
  | hookAlreadyInstalled
  | methodNotAvailable
  | methodAlreadyInstalled
  | interruptAlreadyInstalled
  | keyError
  | fuelExhausted
deriving DecidableEq, Repr

/-- Behaviour of an external callback when invoked: return a boolean or raise. -/
inductive CbResult
  | ret (b : Bool)
  | raises
deriving DecidableEq, Repr

/-- Behaviour of a script when its discovery is attempted: load successfully, raise
DeferScriptLoading with a required type and instance, raise CancelScriptLoading, or
fail with any other exception. -/
inductive ScriptOutcome
  | loads
  | reDefers (t : Name) (inst : Name)
  | cancels
  | fails
deriving DecidableEq, Repr

/-- Behaviour of a plugin candidate when its discovery is attempted: fail to
resolve, or expose a requirement list followed by a module class.  The candidate
defers on the first requirement that is not yet discovered, succeeding when all
requirements are met. -/
inductive DiscOutcome
  | broken
  | mod (reqs : List Name) (cls : ModClass)
deriving DecidableEq, Repr

/-- The external collaborators of the manager, abstracted: results of custom-method
callbacks, behaviour of hook callbacks, behaviour of scripts and of plugin
candidates. -/
structure Env where
  callResult : Nat → List Nat → Nat
  cbBehavior : Callback → CbResult
  scriptOutcome : Name → ScriptOutcome
  discOutcome : Name → DiscOutcome

/-- The whole mutable state of a ModuleManager, plus a trace of observable events. -/
structure MMState where
  found_modules : List (Name × ModClass)
  loaded_modules : List (Name × ModInstance)
  attached_hooks : List (Name × Hook)
  custom_hooks : List (Name × Hook)
  custom_methods : List (Name × MMethod)
  external_interrupts : List (Name × MMethod)
  scripts : List Name
  deferred_scripts : List (Name × List (Name × Name))
  deferred_discoveries : List (Name × Name)
  discovery_active : Bool
  trace : List Event
deriving DecidableEq, Repr

/-- The manager sentinel name. -/
def modmanName : Name := "modman".toList

/-- Name of the module-loaded system hook. -/
def moduleLoadedHook : Name := "modman.module_loaded".toList

/-- Name of the module-unloaded system hook. -/
def moduleUnloadedHook : Name := "modman.module_unloaded".toList

/-- Name of the tick system hook. -/
def tickHook : Name := "modman.tick".toList

/-- The state of a freshly constructed ModuleManager. -/
def initial_state : MMState :=
  { found_modules := []
    loaded_modules := []
    attached_hooks := [(moduleLoadedHook, ⟨modmanName, []⟩),
                       (moduleUnloadedHook, ⟨modmanName, []⟩),
                       (tickHook, ⟨modmanName, []⟩)]
    custom_hooks := []
    custom_methods := []
    external_interrupts := []
    scripts := []
    deferred_scripts := []
    deferred_discoveries := []
    discovery_active := false
    trace := [] }

/-- Translation of _install_custom_hook. -/
def install_custom_hook_by (m : MMState) (hook_name installed_by : Name) :
    Except MMErr MMState :=
  if amem hook_name m.custom_hooks then Except.error MMErr.hookAlreadyInstalled
  else Except.ok { m with custom_hooks := ainsert hook_name ⟨installed_by, []⟩ m.custom_hooks }

/-- Translation of _install_custom_method. -/
def install_custom_method_by (m : MMState) (method_name : Name) (callback : Nat)
    (installer : Name) : Except MMErr MMState :=
  if amem method_name m.custom_methods then Except.error MMErr.methodAlreadyInstalled
  else Except.ok { m with custom_methods := ainsert method_name ⟨callback, installer⟩ m.custom_methods }

/-- Translation of _install_interrupt_handler. -/
def install_interrupt_handler_by (m : MMState) (interrupt_key : Name) (callback : Nat)
    (installer : Name) : Except MMErr MMState :=
  if amem interrupt_key m.external_interrupts then Except.error MMErr.interruptAlreadyInstalled
  else Except.ok { m with external_interrupts := ainsert interrupt_key ⟨callback, installer⟩ m.external_interrupts }

/-- Translation of call_custom_method: invoke the registered callback and return
its result, or raise MethodNotAvailableError. -/
def call_custom_method (env : Env) (m : MMState) (method_name : Name) (args : List Nat) :
    Except MMErr Nat :=
  match alookup method_name m.custom_methods with
  | some e => Except.ok (env.callResult e.call args)
  | none => Except.error MMErr.methodNotAvailable

/-- Translation of external_interrupt: invoke the registered callback when the key
is present; the function raises nothing in either case, so the second component
(the exception raised, if any) is always none. -/
def external_interrupt (m : MMState) (interrupt_key : Name) : MMState × Option MMErr :=
  match alookup interrupt_key m.external_interrupts with
  | some e => ({ m with trace := m.trace ++ [Event.interruptInvoked e.call] }, none)
  | none => (m, none)

/-- Translation of attach_custom_hook. -/
def attach_custom_hook_op (m : MMState) (attach_to : Name) (att : HookAttacher) :
    Except MMErr MMState :=
  match alookup attach_to m.custom_hooks with
  | some h =>
    Except.ok { m with custom_hooks := ainsert attach_to (h.attach_callback att) m.custom_hooks }
  | none => Except.error MMErr.hookNotAvailable

/-- Translation of attach_manager_hook. -/
def attach_manager_hook_op (m : MMState) (attach_to : Name) (att : HookAttacher) :
    Except MMErr MMState :=
  match alookup attach_to m.attached_hooks with
  | some h =>
    Except.ok { m with attached_hooks := ainsert attach_to (h.attach_callback att) m.attached_hooks }
  | none => Except.error MMErr.hookNotAvailable

/-- A query reply: either a payload or the tagged error dictionary with the given
error code, as returned across the query boundary. -/
inductive QueryReply (α : Type)
  | ok (a : α)
  | errDescr (code : Name)
deriving DecidableEq, Repr

/-- The invalid_module error code. -/
def invalidModuleCode : Name := "invalid_module".toList

/-- Translation of get_module_capabilities: the capability list when the type is
discovered, and the implicit Python None otherwise. -/
def get_module_capabilities (m : MMState) (module_name : Name) : Option (List Nat) :=
  (alookup module_name m.found_modules).map ModClass.capabilities

/-- Translation of get_module_structure; the serializable payload is abstracted as
the module class itself. -/
def get_module_structure (m : MMState) (module_name : Name) : QueryReply ModClass :=
  match alookup module_name m.found_modules with
  | some c => QueryReply.ok c
  | none => QueryReply.errDescr invalidModuleCode

/-- Translation of get_module_info. -/
def get_module_info (m : MMState) (module_name : Name) : QueryReply ModClass :=
  match alookup module_name m.found_modules with
  | some c => QueryReply.ok c
  | none => QueryReply.errDescr invalidModuleCode

/-- Translation of get_module_property_list. -/
def get_module_property_list (m : MMState) (module_name : Name) : QueryReply ModClass :=
  match alookup module_name m.found_modules with
  | some c => QueryReply.ok c
  | none => QueryReply.errDescr invalidModuleCode

/-- Translation of get_module_method_list. -/
def get_module_method_list (m : MMState) (module_name : Name) : QueryReply ModClass :=
  match alookup module_name m.found_modules with
  | some c => QueryReply.ok c
  | none => QueryReply.errDescr invalidModuleCode

/-- Events notified while a custom hook owned by an unloading module is about to be
deleted: every attachment whose argument is the name of a currently loaded module
makes that module receive a provider_unloaded communication, in attachment order. -/
def notifyHook (loaded : List (Name × ModInstance)) (h : Hook) : List Event :=
  h.attached_callbacks.filterMap (fun a =>
    match a.argument with
    | HookArg.argStr s =>
      if amem s loaded then some (Event.comm s Reason.provider_unloaded) else none
    | _ => none)

/-- Loop of _unload_module that removes the custom hooks owned by the unloading
module: for each collected hook name, in order, notify the subscribed loaded
modules and then delete the table entry. -/
def removeHooksLoop (loaded : List (Name × ModInstance)) :
    List Name → List (Name × Hook) × List Event → List (Name × Hook) × List Event
  | [], st => st
  | hn :: rest, (hooks, evs) =>
    match alookup hn hooks with
    | some h => removeHooksLoop loaded rest (aerase hn hooks, evs ++ notifyHook loaded h)
    | none => removeHooksLoop loaded rest (hooks, evs)

/-- Detach phase of _unload_module for one hook: find the attachments whose
argument is the unloaded instance name, then detach each of them. -/
def Hook.detachArgument (X : Name) (h : Hook) : Hook :=
  (h.find_callback_by_argument (HookArg.argStr X)).foldl Hook.detach_callback h

/-- Translation of _unload_module: the not-loaded and ownership checks, the
instance unload callback (an external collaborator, modelled as effect-free on
manager state), removal of owned custom hooks with notification before deletion,
removal of owned custom methods and interrupt handlers, detachment by argument on
every remaining custom and system hook, and removal of the instance. -/
def unload_module_by (m : MMState) (module_name requester : Name) : Except MMErr MMState :=
  match alookup module_name m.loaded_modules with
  | none => Except.error MMErr.moduleNotLoaded
  | some inst =>
    if requester ≠ inst.loadedBy ∧ requester ≠ modmanName then
      Except.error MMErr.cannotUnload
    else
      let removeHooks := (m.custom_hooks.filter (fun p => p.2.owner == module_name)).map (fun p => p.1)
      let step1 := removeHooksLoop m.loaded_modules removeHooks (m.custom_hooks, [])
      let removeMethods :=
        (m.custom_methods.filter (fun p => p.2.owner == module_name)).map (fun p => p.1)
      let methods1 := removeMethods.foldl (fun t k => aerase k t) m.custom_methods
      let removeInterrupts :=
        (m.external_interrupts.filter (fun p => p.2.owner == module_name)).map (fun p => p.1)
      let interrupts1 := removeInterrupts.foldl (fun t k => aerase k t) m.external_interrupts
      let hooks2 := step1.1.map (fun p => (p.1, Hook.detachArgument module_name p.2))
      let sysHooks := m.attached_hooks.map (fun p => (p.1, Hook.detachArgument module_name p.2))
      Except.ok { m with
        custom_hooks := hooks2
        custom_methods := methods1
        external_interrupts := interrupts1
        attached_hooks := sysHooks
        loaded_modules := aerase module_name m.loaded_modules
        trace := m.trace ++ step1.2 }

theorem alookup_cons_self {V : Type} (k : Name) (v : V) (t : List (Name × V)) :
    alookup k ((k, v) :: t) = some v := by
  simp [alookup]

theorem alookup_cons_ne {V : Type} {k k2 : Name} (v : V) (t : List (Name × V))
    (h : k2 ≠ k) : alookup k ((k2, v) :: t) = alookup k t := by
  simp [alookup, h]

theorem aerase_cons_self {V : Type} (k : Name) (v : V) (t : List (Name × V)) :
    aerase k ((k, v) :: t) = t := by
  simp [aerase]

theorem aerase_cons_ne {V : Type} {k k2 : Name} (v : V) (t : List (Name × V))
    (h : k2 ≠ k) : aerase k ((k2, v) :: t) = (k2, v) :: aerase k t := by
  simp [aerase, h]

theorem foldl_aerase_cons {V : Type} :
    ∀ (K : List Name) (a : Name × V) (t : List (Name × V)), (∀ k ∈ K, k ≠ a.1) →
    K.foldl (fun s k => aerase k s) (a :: t) = a :: K.foldl (fun s k => aerase k s) t := by
  intro K
  induction K with
  | nil => intro a t _; rfl
  | cons k K ih =>
    intro a t h
    have hk : k ≠ a.1 := h k (by simp)
    simp only [List.foldl_cons]
    obtain ⟨a1, a2⟩ := a
    rw [aerase_cons_ne a2 t (fun he => hk he.symm)]
    exact ih (a1, a2) (aerase k t) (fun x hx => h x (by simp [hx]))

theorem mem_filter_keys_sub {V : Type} {p : Name × V → Bool} {t : List (Name × V)}
    {k : Name} (h : k ∈ (t.filter p).map (fun q => q.1)) : k ∈ akeys t := by
  simp only [List.mem_map] at h
  obtain ⟨q, hq, rfl⟩ := h
  exact List.mem_map_of_mem _ (List.mem_of_mem_filter hq)

theorem foldl_aerase_filter {V : Type} (p : Name × V → Bool) :
    ∀ (l : List (Name × V)), (akeys l).Nodup →
    ((l.filter p).map (fun q => q.1)).foldl (fun s k => aerase k s) l
      = l.filter (fun q => ! p q) := by
  intro l
  induction l with
  | nil => intro _; rfl
  | cons a t ih =>
    intro hnd
    simp only [akeys, List.map_cons, List.nodup_cons] at hnd
    obtain ⟨hna, hndt⟩ := hnd
    cases hp : p a with
    | true =>
      obtain ⟨a1, a2⟩ := a
      have hstep : ((((a1, a2) :: t).filter p).map (fun q => q.1))
          = a1 :: (t.filter p).map (fun q => q.1) := by
        simp [List.filter_cons, hp]
      rw [hstep]
      simp only [List.foldl_cons]
      rw [aerase_cons_self, ih hndt]
      simp [List.filter_cons, hp]
    | false =>
      have hstep : (((a :: t).filter p).map (fun q => q.1))
          = (t.filter p).map (fun q => q.1) := by
        simp [List.filter_cons, hp]
      rw [hstep]
      rw [foldl_aerase_cons _ a t (fun k hk => by
        intro he
        exact hna (he ▸ mem_filter_keys_sub hk))]
      rw [ih hndt]
      simp [List.filter_cons, hp]

theorem foldl_erase_cons {A : Type} [DecidableEq A] :
    ∀ (K : List A) (a : A) (t : List A), (∀ c ∈ K, c ≠ a) →
    K.foldl (fun s c => s.erase c) (a :: t) = a :: K.foldl (fun s c => s.erase c) t := by
  intro K
  induction K with
  | nil => intro a t _; rfl
  | cons c K ih =>
    intro a t h
    have hc : c ≠ a := h c (by simp)
    simp only [List.foldl_cons]
    rw [List.erase_cons]
    rw [if_neg (by simp [hc.symm])]
    exact ih a (t.erase c) (fun x hx => h x (by simp [hx]))

theorem foldl_erase_filter {A : Type} [DecidableEq A] (q : A → Bool) :
    ∀ (l : List A),
    (l.filter q).foldl (fun s c => s.erase c) l = l.filter (fun c => ! q c) := by
  intro l
  induction l with
  | nil => rfl
  | cons a t ih =>
    cases hq : q a with
    | true =>
      have hstep : (a :: t).filter q = a :: t.filter q := by
        simp [List.filter_cons, hq]
      rw [hstep]
      simp only [List.foldl_cons]
      rw [List.erase_cons_head, ih]
      simp [List.filter_cons, hq]
    | false =>
      have hstep : (a :: t).filter q = t.filter q := by
        simp [List.filter_cons, hq]
      rw [hstep]
      rw [foldl_erase_cons _ a t (fun c hc => by
        intro he
        have := List.of_mem_filter hc
        rw [he, hq] at this
        exact Bool.false_ne_true this)]
      rw [ih]
      simp [List.filter_cons, hq]

theorem detach_callback_eq_erase (hk : Hook) (c : HookAttacher) :
    hk.detach_callback c = { hk with attached_callbacks := hk.attached_callbacks.erase c } := by
  unfold Hook.detach_callback
  by_cases hc : c ∈ hk.attached_callbacks
  · simp [hc]
  · simp [hc, List.erase_of_not_mem hc]

theorem foldl_detach_eq (K : List HookAttacher) :
    ∀ (hk : Hook), K.foldl Hook.detach_callback hk =
      { hk with attached_callbacks := K.foldl (fun s c => s.erase c) hk.attached_callbacks } := by
  induction K with
  | nil => intro hk; rfl
  | cons c K ih =>
    intro hk
    simp only [List.foldl_cons]
    rw [detach_callback_eq_erase, ih]

theorem detachArgument_eq (X : Name) (h : Hook) :
    Hook.detachArgument X h =
      { h with attached_callbacks :=
          h.attached_callbacks.filter (fun cb => ! (cb.argument == HookArg.argStr X)) } := by
  unfold Hook.detachArgument Hook.find_callback_by_argument
  rw [foldl_detach_eq]
  rw [foldl_erase_filter]

theorem removeHooksLoop_cons (loaded : List (Name × ModInstance)) :
    ∀ (K : List Name) (a : Name × Hook) (t : List (Name × Hook)) (evs : List Event),
    (∀ k ∈ K, k ≠ a.1) →
    removeHooksLoop loaded K (a :: t, evs) =
      ((a :: (removeHooksLoop loaded K (t, evs)).1), (removeHooksLoop loaded K (t, evs)).2) := by
  intro K
  induction K with
  | nil => intro a t evs _; rfl
  | cons k K ih =>
    intro a t evs h
    have hk : k ≠ a.1 := h k (by simp)
    obtain ⟨a1, a2⟩ := a
    simp only [removeHooksLoop]
    rw [alookup_cons_ne a2 t (fun he => hk he.symm)]
    cases hl : alookup k t with
    | some hkv =>
      rw [aerase_cons_ne a2 t (fun he => hk he.symm)]
      exact ih (a1, a2) (aerase k t) (evs ++ notifyHook loaded hkv)
        (fun x hx => h x (by simp [hx]))
    | none =>
      exact ih (a1, a2) t evs (fun x hx => h x (by simp [hx]))

theorem removeHooksLoop_spec (loaded : List (Name × ModInstance)) (p : Name × Hook → Bool) :
    ∀ (hooks : List (Name × Hook)) (evs : List Event), (akeys hooks).Nodup →
    removeHooksLoop loaded ((hooks.filter p).map (fun q => q.1)) (hooks, evs) =
      (hooks.filter (fun q => ! p q),
       evs ++ ((hooks.filter p).map (fun q => notifyHook loaded q.2)).flatten) := by
  intro hooks
  induction hooks with
  | nil => intro evs _; simp [removeHooksLoop]
  | cons a t ih =>
    intro evs hnd
    simp only [akeys, List.map_cons, List.nodup_cons] at hnd
    obtain ⟨hna, hndt⟩ := hnd
    cases hp : p a with
    | true =>
      obtain ⟨a1, a2⟩ := a
      have hstep : ((((a1, a2) :: t).filter p).map (fun q => q.1))
          = a1 :: (t.filter p).map (fun q => q.1) := by
        simp [List.filter_cons, hp]
      rw [hstep]
      simp only [removeHooksLoop, alookup_cons_self, aerase_cons_self]
      rw [ih (evs ++ notifyHook loaded a2) hndt]
      simp [List.filter_cons, hp, List.append_assoc]
    | false =>
      have hstep : (((a :: t).filter p).map (fun q => q.1))
          = (t.filter p).map (fun q => q.1) := by
        simp [List.filter_cons, hp]
      rw [hstep]
      rw [removeHooksLoop_cons loaded _ a t evs (fun k hk => by
        intro he
        exact hna (he ▸ mem_filter_keys_sub hk))]
      rw [ih evs hndt]
      simp [List.filter_cons, hp]

/-- C9: attaching to a hook an attachment equal to one already attached leaves the
attachment list unchanged, and attaching preserves the absence of duplicate
attachments, so no identical attachment is ever present twice. -/
theorem claim_C9_attach_idempotent (h : Hook) (c : HookAttacher) :
    (c ∈ h.attached_callbacks → h.attach_callback c = h) ∧
    (h.attached_callbacks.Nodup → (h.attach_callback c).attached_callbacks.Nodup) := by
  constructor
  · intro hc
    simp [Hook.attach_callback, hc]
  · intro hnd
    unfold Hook.attach_callback
    by_cases hc : c ∈ h.attached_callbacks
    · simpa [hc] using hnd
    · simp only [hc, if_neg, if_false]
      rw [List.nodup_append]
      exact ⟨hnd, List.nodup_singleton c, fun a ha hb => by
        simp at hb
        exact hc (hb ▸ ha)⟩

/-- Witness for C9 at a concrete hook whose single attachment is re-attached. -/
theorem claim_C9_witness :
    (Hook.attach_callback ⟨[], [⟨⟨[], 0⟩, HookAction.noAction, HookArg.argNone⟩]⟩
        ⟨⟨[], 0⟩, HookAction.noAction, HookArg.argNone⟩
      = ⟨[], [⟨⟨[], 0⟩, HookAction.noAction, HookArg.argNone⟩]⟩) ∧
    (Hook.attach_callback ⟨[], [⟨⟨[], 0⟩, HookAction.noAction, HookArg.argNone⟩]⟩
        ⟨⟨[], 0⟩, HookAction.noAction, HookArg.argNone⟩).attached_callbacks.Nodup := by
  have h := claim_C9_attach_idempotent
    ⟨[], [⟨⟨[], 0⟩, HookAction.noAction, HookArg.argNone⟩]⟩
    ⟨⟨[], 0⟩, HookAction.noAction, HookArg.argNone⟩
  exact ⟨h.1 (by decide), h.2 (by decide)⟩

/-- C10: querying the capabilities of an undiscovered type returns the implicit
None, while the sibling queries return the tagged invalid_module error
dictionary. -/
theorem claim_C10_capabilities_none (m : MMState) (n : Name)
    (h : alookup n m.found_modules = none) :
    get_module_capabilities m n = none ∧
    get_module_structure m n = QueryReply.errDescr invalidModuleCode ∧
    get_module_info m n = QueryReply.errDescr invalidModuleCode ∧
    get_module_property_list m n = QueryReply.errDescr invalidModuleCode ∧
    get_module_method_list m n = QueryReply.errDescr invalidModuleCode := by
  refine ⟨?_, ?_, ?_, ?_, ?_⟩ <;>
    simp [get_module_capabilities, get_module_structure, get_module_info,
          get_module_property_list, get_module_method_list, h]

/-- Witness for C10 on the fresh manager state and an unknown type name. -/
theorem claim_C10_witness :
    get_module_capabilities initial_state ("ghost".toList) = none ∧
    get_module_structure initial_state ("ghost".toList)
      = QueryReply.errDescr invalidModuleCode := by
  have h := claim_C10_capabilities_none initial_state ("ghost".toList) (by decide)
  exact ⟨h.1, h.2.1⟩

/-- C5: an unload request succeeds exactly when the requester is the recorded
loaded_by owner or the manager sentinel; other requesters receive
CannotUnloadError, and an absent instance name receives ModuleNotLoadedError. -/
theorem claim_C5_unload_ownership (m : MMState) (X R : Name) :
    (alookup X m.loaded_modules = none →
      unload_module_by m X R = Except.error MMErr.moduleNotLoaded) ∧
    (∀ inst, alookup X m.loaded_modules = some inst →
      R ≠ inst.loadedBy → R ≠ modmanName →
      unload_module_by m X R = Except.error MMErr.cannotUnload) ∧
    (∀ inst, alookup X m.loaded_modules = some inst →
      (R = inst.loadedBy ∨ R = modmanName) →
      ∃ m2, unload_module_by m X R = Except.ok m2) := by
  refine ⟨?_, ?_, ?_⟩
  · intro h
    simp [unload_module_by, h]
  · intro inst h h1 h2
    simp [unload_module_by, h, h1, h2]
  · intro inst h hor
    have hcond : ¬ (R ≠ inst.loadedBy ∧ R ≠ modmanName) := by
      rcases hor with h1 | h1 <;> simp [h1]
    simp only [unload_module_by, h]
    rw [if_neg hcond]
    exact ⟨_, rfl⟩

/-- Witness for C5: on a concrete one-instance state, a stranger is refused, a
ghost name is not loaded, and the manager sentinel succeeds. -/
theorem claim_C5_witness :
    (unload_module_by
        { initial_state with loaded_modules := [("a".toList, ⟨"t".toList, "b".toList⟩)] }
        ("a".toList) ("c".toList) = Except.error MMErr.cannotUnload) ∧
    (unload_module_by
        { initial_state with loaded_modules := [("a".toList, ⟨"t".toList, "b".toList⟩)] }
        ("ghost".toList) ("c".toList) = Except.error MMErr.moduleNotLoaded) ∧
    (∃ m2, unload_module_by
        { initial_state with loaded_modules := [("a".toList, ⟨"t".toList, "b".toList⟩)] }
        ("a".toList) modmanName = Except.ok m2) := by
  have h := claim_C5_unload_ownership
    { initial_state with loaded_modules := [("a".toList, ⟨"t".toList, "b".toList⟩)] }
    ("a".toList) ("c".toList)
  have h2 := claim_C5_unload_ownership
    { initial_state with loaded_modules := [("a".toList, ⟨"t".toList, "b".toList⟩)] }
    ("ghost".toList) ("c".toList)
  have h3 := claim_C5_unload_ownership
    { initial_state with loaded_modules := [("a".toList, ⟨"t".toList, "b".toList⟩)] }
    ("a".toList) modmanName
  refine ⟨?_, ?_, ?_⟩
  · exact h.2.1 ⟨"t".toList, "b".toList⟩ (by decide) (by decide) (by decide)
  · exact h2.1 (by decide)
  · exact h3.2.2 ⟨"t".toList, "b".toList⟩ (by decide) (Or.inr rfl)

/-- C8 as stated is false: triggering an external interrupt whose key is absent is
a silent no-op, not a NotAvailable failure.  On the fresh state the interrupt
trigger returns with no state change and raises nothing, while the method call
raises MethodNotAvailableError. -/
theorem claim_C8_counterexample :
    external_interrupt initial_state ("k".toList) = (initial_state, none) ∧
    (none : Option MMErr) ≠ some MMErr.methodNotAvailable ∧
    call_custom_method ⟨fun _ _ => 0, fun _ => CbResult.ret false,
        fun _ => ScriptOutcome.loads, fun _ => DiscOutcome.broken⟩
      initial_state ("k".toList) [] = Except.error MMErr.methodNotAvailable := by
  refine ⟨by decide, by decide, rfl⟩

/-- C8 amended: calling an absent custom method fails with MethodNotAvailableError
and a present one returns the result of the callback; triggering an absent external
interrupt silently does nothing (no error is raised), and a present one invokes
its callback without returning its result. -/
theorem claim_C8_side_registries (env : Env) (m : MMState) (key : Name) (args : List Nat) :
    (alookup key m.custom_methods = none →
      call_custom_method env m key args = Except.error MMErr.methodNotAvailable) ∧
    (∀ e, alookup key m.custom_methods = some e →
      call_custom_method env m key args = Except.ok (env.callResult e.call args)) ∧
    (alookup key m.external_interrupts = none →
      external_interrupt m key = (m, none)) ∧
    (∀ e, alookup key m.external_interrupts = some e →
      external_interrupt m key =
        ({ m with trace := m.trace ++ [Event.interruptInvoked e.call] }, none)) := by
  refine ⟨?_, ?_, ?_, ?_⟩
  · intro h; simp [call_custom_method, h]
  · intro e h; simp [call_custom_method, h]
  · intro h; simp [external_interrupt, h]
  · intro e h; simp [external_interrupt, h]

/-- Witness for C8 amended on a concrete registry state. -/
theorem claim_C8_witness :
    (call_custom_method ⟨fun c _ => c + 1, fun _ => CbResult.ret false,
        fun _ => ScriptOutcome.loads, fun _ => DiscOutcome.broken⟩
      { initial_state with custom_methods := [("f".toList, ⟨6, modmanName⟩)] }
      ("f".toList) [] = Except.ok 7) ∧
    (external_interrupt
      { initial_state with custom_methods := [("f".toList, ⟨6, modmanName⟩)] }
      ("f".toList) =
      ({ initial_state with custom_methods := [("f".toList, ⟨6, modmanName⟩)] }, none)) := by
  have h := claim_C8_side_registries
    ⟨fun c _ => c + 1, fun _ => CbResult.ret false,
        fun _ => ScriptOutcome.loads, fun _ => DiscOutcome.broken⟩
    { initial_state with custom_methods := [("f".toList, ⟨6, modmanName⟩)] }
    ("f".toList) []
  exact ⟨h.2.1 ⟨6, modmanName⟩ (by decide), h.2.2.1 (by decide)⟩

/-- C1 amended: unloading X removes every custom hook, custom method and interrupt
handler owned by X; detaches, on every surviving custom hook and on every system
hook, every attachment whose argument is the name X (attachments carry no owner
record, so an attachment whose callback belongs to X but whose argument names
something else is kept); and, before each hook owned by X is deleted, emits a
provider_unloaded communication for every loaded instance named as an attachment
argument of that hook, the notifications being computed from the tables as they
were before any deletion. -/
theorem claim_C1_unload_cascade (m : MMState) (X : Name) (inst : ModInstance)
    (hX : alookup X m.loaded_modules = some inst)
    (hndH : (akeys m.custom_hooks).Nodup)
    (hndM : (akeys m.custom_methods).Nodup)
    (hndI : (akeys m.external_interrupts).Nodup) :
    unload_module_by m X modmanName = Except.ok { m with
      custom_hooks := (m.custom_hooks.filter (fun p => ! (p.2.owner == X))).map
        (fun p => (p.1, Hook.detachArgument X p.2))
      custom_methods := m.custom_methods.filter (fun p => ! (p.2.owner == X))
      external_interrupts := m.external_interrupts.filter (fun p => ! (p.2.owner == X))
      attached_hooks := m.attached_hooks.map (fun p => (p.1, Hook.detachArgument X p.2))
      loaded_modules := aerase X m.loaded_modules
      trace := m.trace ++
        ((m.custom_hooks.filter (fun p => p.2.owner == X)).map
          (fun q => notifyHook m.loaded_modules q.2)).flatten } := by
  unfold unload_module_by
  rw [hX]
  simp only [ne_eq, not_true_eq_false, and_false, if_false,
    removeHooksLoop_spec m.loaded_modules (fun p => p.2.owner == X) m.custom_hooks [] hndH,
    foldl_aerase_filter (fun p => p.2.owner == X) m.custom_methods hndM,
    foldl_aerase_filter (fun p => p.2.owner == X) m.external_interrupts hndI,
    List.nil_append]

/-- A concrete state for refuting C1 as stated: instance x owns custom hook h, to
which the loaded instance y is attached by callback only; the tick system hook
carries an attachment whose callback is owned by x but whose argument names z. -/
def c1State : MMState :=
  { initial_state with
    loaded_modules := [("x".toList, ⟨"tx".toList, modmanName⟩),
                       ("y".toList, ⟨"ty".toList, modmanName⟩)]
    custom_hooks := [("h".toList,
      ⟨"x".toList, [⟨⟨"y".toList, 0⟩, HookAction.noAction, HookArg.argNone⟩]⟩)]
    attached_hooks := [(tickHook,
      ⟨modmanName, [⟨⟨"x".toList, 1⟩, HookAction.noAction, HookArg.argStr ("z".toList)⟩]⟩)] }

/-- The state c1State after unloading x as the manager. -/
def c1After : MMState :=
  { c1State with
    custom_hooks := []
    loaded_modules := [("y".toList, ⟨"ty".toList, modmanName⟩)] }

/-- C1 as stated is false on c1State: unloading x deletes its hook without any
provider_unloaded communication to the subscribed instance y (the trace stays
empty), and the system-hook attachment whose callback owner is x but whose
argument is z survives undetached. -/
theorem claim_C1_counterexample :
    unload_module_by c1State ("x".toList) modmanName = Except.ok c1After ∧
    alookup tickHook c1After.attached_hooks =
      some ⟨modmanName, [⟨⟨"x".toList, 1⟩, HookAction.noAction, HookArg.argStr ("z".toList)⟩]⟩ ∧
    c1After.trace = [] := by
  refine ⟨rfl, by decide, by decide⟩

/-- The keyword arguments of a load request that the naming logic inspects. -/
structure LoadKwargs where
  instance_name : Option Name
  instance_suffix : Option Name
deriving DecidableEq, Repr

/-- Translation of _is_module_type_present. -/
def typePresent (m : MMState) (module_class_name : Name) : Bool :=
  m.loaded_modules.any (fun p => p.2.typeName == module_class_name)

/-- The instance name _load_module computes from its keyword arguments before any
collision handling: the explicit instance_name or the type name, with the
explicit instance_suffix appended after a dash when given. -/
def requestedName (module_name : Name) (kw : LoadKwargs) : Name :=
  (match kw.instance_name with
   | none => module_name
   | some n => n) ++
  (match kw.instance_suffix with
   | none => []
   | some s => '-' :: s)

/-- Translation of _discover_script: attempt to build the script object; on
DeferScriptLoading record or extend the deferred entry under the required type; on
CancelScriptLoading or any other failure only log.  What the script itself does is
an external collaborator behaviour, abstracted by the environment as a fixed
outcome per script path. -/
def discover_script (env : Env) (m : MMState) (script : Name) : MMState :=
  match env.scriptOutcome script with
  | ScriptOutcome.loads =>
    { m with scripts := if script ∈ m.scripts then m.scripts else m.scripts ++ [script] }
  | ScriptOutcome.reDefers t inst =>
    match alookup t m.deferred_scripts with
    | none => { m with deferred_scripts := ainsert t [(script, inst)] m.deferred_scripts }
    | some entries =>
      { m with deferred_scripts := ainsert t (ainsert script inst entries) m.deferred_scripts }
  | ScriptOutcome.cancels => m
  | ScriptOutcome.fails => m

/-- The test applied by the deferred-script scan of _load_module to one entry:
the key of the entry must equal the loaded type, its required instance must be
nonempty, and the final instance name must equal key-required or required
verbatim. -/
def deferredScriptMatches (module_name instance_name mod_name req : Name) : Bool :=
  mod_name == module_name && !(req == ([] : Name)) &&
    (instance_name == (mod_name ++ '-' :: req) || instance_name == req)

/-- The deferred-script scan of _load_module, iterating the table as of loop
entry: for every matching entry, re-run script discovery.  No entry is ever
removed here. -/
def deferredScriptScan (env : Env) (module_name instance_name : Name) :
    List (Name × List (Name × Name)) → MMState → MMState
  | [], m => m
  | (mod_name, entries) :: rest, m =>
    deferredScriptScan env module_name instance_name rest
      (entries.foldl (fun st e =>
        if deferredScriptMatches module_name instance_name mod_name e.2 then
          discover_script env st e.1
        else st) m)

mutual

/-- Translation of _load_module: unknown-type check, instance naming from the
keyword arguments, the single-instance check by type, the collision branch with
automatic or class-supplied suffix (which returns before any deferred-script
scan), and the plain branch which registers the instance, fires the
module-loaded hook and then scans deferred scripts.  The fuel bounds the
reentrant recursion through hook triggering; running out is reported as the
distinct fuelExhausted error. -/
def load_module_f (env : Env) : Nat → MMState → Name → Name → LoadKwargs →
    MMState × Except MMErr Name
  | 0, m, _, _, _ => (m, Except.error MMErr.fuelExhausted)
  | fuel + 1, m, module_name, loaded_by, kw =>
    match alookup module_name m.found_modules with
    | none => (m, Except.error MMErr.moduleLoadError)
    | some cls =>
      let instance_name := requestedName module_name kw
      if typePresent m module_name && !(cls.capabilities.contains multiInstanceAllowed) then
        (m, Except.error MMErr.moduleAlreadyLoaded)
      else if amem instance_name m.loaded_modules then
        let mi_s := match cls.multiInstSuffix with
          | none => natToChars (handle_multiple_instance instance_name (akeys m.loaded_modules))
          | some s => s
        let multi_inst_name := instance_name ++ '-' :: mi_s
        let newLoaded := ainsert multi_inst_name ⟨module_name, loaded_by⟩ m.loaded_modules
        let m1 := { m with loaded_modules := newLoaded }
        let m2 := trigger_from_f env fuel m1 false moduleLoadedHook
          ⟨some multi_inst_name, none⟩ 0
        (m2, Except.ok multi_inst_name)
      else
        let newLoaded := ainsert instance_name ⟨module_name, loaded_by⟩ m.loaded_modules
        let m1 := { m with loaded_modules := newLoaded }
        let m2 := trigger_from_f env fuel m1 false moduleLoadedHook
          ⟨some instance_name, none⟩ 0
        let m3 := deferredScriptScan env module_name instance_name m2.deferred_scripts m2
        (m3, Except.ok instance_name)

/-- Translation of the loop of _trigger_hooks, iterating by index over the
attachment list of the named hook as held in the current state (Python iterates
the live list).  The callback of each attachment is invoked and recorded; a raise is
logged and the loop continues; a true result triggers the action: a load of the
declared type of the argument class forwarding the event keywords (failures of any
kind are caught and logged), or an unload of the argument instance as the
manager (failures are caught by the outer handler and logged). -/
def trigger_from_f (env : Env) : Nat → MMState → Bool → Name → LoadKwargs → Nat → MMState
  | 0, m, _, _, _, _ => m
  | fuel + 1, m, useCustom, hook_name, kw, idx =>
    match (if useCustom then alookup hook_name m.custom_hooks
           else alookup hook_name m.attached_hooks) with
    | none => m
    | some h =>
      match h.attached_callbacks[idx]? with
      | none => m
      | some a =>
        let m0 := { m with trace := m.trace ++ [Event.cbInvoked a.callback] }
        match env.cbBehavior a.callback with
        | CbResult.raises =>
          trigger_from_f env fuel { m0 with trace := m0.trace ++ [Event.errorLogged] }
            useCustom hook_name kw (idx + 1)
        | CbResult.ret false => trigger_from_f env fuel m0 useCustom hook_name kw (idx + 1)
        | CbResult.ret true =>
          match a.action with
          | HookAction.noAction => trigger_from_f env fuel m0 useCustom hook_name kw (idx + 1)
          | HookAction.loadAction =>
            match a.argument with
            | HookArg.argCls c =>
              let r := load_module_f env fuel m0 c.typeName modmanName kw
              match r.2 with
              | Except.ok _ => trigger_from_f env fuel r.1 useCustom hook_name kw (idx + 1)
              | Except.error _ =>
                trigger_from_f env fuel { r.1 with trace := r.1.trace ++ [Event.errorLogged] }
                  useCustom hook_name kw (idx + 1)
            | _ =>
              trigger_from_f env fuel { m0 with trace := m0.trace ++ [Event.errorLogged] }
                useCustom hook_name kw (idx + 1)
          | HookAction.unloadAction =>
            match a.argument with
            | HookArg.argStr s =>
              match unload_module_by m0 s modmanName with
              | Except.ok m2 => trigger_from_f env fuel m2 useCustom hook_name kw (idx + 1)
              | Except.error _ =>
                trigger_from_f env fuel { m0 with trace := m0.trace ++ [Event.errorLogged] }
                  useCustom hook_name kw (idx + 1)
            | _ =>
              trigger_from_f env fuel { m0 with trace := m0.trace ++ [Event.errorLogged] }
                useCustom hook_name kw (idx + 1)

end

/-- Translation of trigger_custom_hook. -/
def trigger_custom_hook_f (env : Env) (fuel : Nat) (m : MMState) (hook_name : Name)
    (kw : LoadKwargs) : MMState :=
  trigger_from_f env fuel m true hook_name kw 0

/-- Translation of _trigger_manager_hook. -/
def trigger_manager_hook_f (env : Env) (fuel : Nat) (m : MMState) (hook_name : Name)
    (kw : LoadKwargs) : MMState :=
  trigger_from_f env fuel m false hook_name kw 0

/-- One keyword operation recognized by the dispatch entry point module_handler,
with its arguments already parsed from the list or dictionary payload. -/
inductive HandlerOp
  | callCustomMethodOp (name : Name) (args : List Nat)
  | attachCustomHookOp (hook : Name) (att : HookAttacher)
  | attachManagerHookOp (hook : Name) (att : HookAttacher)
  | loadModuleOp (t : Name) (kw : LoadKwargs)
  | unloadModuleOp (inst : Name)
  | installCustomHookOp (h : Name)
  | installCustomMethodOp (name : Name) (cb : Nat)
  | installInterruptHandlerOp (k : Name) (cb : Nat)
  | requireModuleInstanceOp (inst : Name)
deriving DecidableEq, Repr

/-- A value returned by the dispatch entry point. -/
inductive HandlerRet
  | noneV
  | num (n : Nat)
  | str (s : Name)
deriving DecidableEq, Repr

/-- Result of one dispatch: the state afterwards, the returned value, and the
exception propagated synchronously to the caller, if any. -/
structure HandlerResult where
  state : MMState
  ret : HandlerRet
  raised : Option MMErr
deriving DecidableEq, Repr

/-- Record an asynchronous failure notification delivered to the calling
instance through its handler_communicate method. -/
def addComm (m : MMState) (which : Name) (r : Reason) : MMState :=
  { m with trace := m.trace ++ [Event.comm which r] }

/-- Translation of module_handler for one keyword operation: every fallible
operation catches its own specific error and converts it to a handler_communicate
notification on the calling instance (looking the caller up in the loaded table,
which in Python would raise KeyError for an unloaded caller, modelled as the
keyError result), while the require_module_instance check raises synchronously. -/
def module_handler_f (env : Env) (fuel : Nat) (m : MMState) (which : Name) :
    HandlerOp → HandlerResult
  | HandlerOp.callCustomMethodOp name args =>
    match call_custom_method env m name args with
    | Except.ok v => ⟨m, HandlerRet.num v, none⟩
    | Except.error _ =>
      if amem which m.loaded_modules then
        ⟨addComm m which Reason.call_method_failed, HandlerRet.noneV, none⟩
      else ⟨m, HandlerRet.noneV, some MMErr.keyError⟩
  | HandlerOp.attachCustomHookOp hook att =>
    match attach_custom_hook_op m hook att with
    | Except.ok m2 => ⟨m2, HandlerRet.noneV, none⟩
    | Except.error _ =>
      if amem which m.loaded_modules then
        ⟨addComm m which Reason.attach_hook_failed, HandlerRet.noneV, none⟩
      else ⟨m, HandlerRet.noneV, some MMErr.keyError⟩
  | HandlerOp.attachManagerHookOp hook att =>
    match attach_manager_hook_op m hook att with
    | Except.ok m2 => ⟨m2, HandlerRet.noneV, none⟩
    | Except.error _ =>
      if amem which m.loaded_modules then
        ⟨addComm m which Reason.attach_hook_failed, HandlerRet.noneV, none⟩
      else ⟨m, HandlerRet.noneV, some MMErr.keyError⟩
  | HandlerOp.loadModuleOp t kw =>
    match load_module_f env fuel m t which kw with
    | (m2, Except.ok n) => ⟨m2, HandlerRet.str n, none⟩
    | (m2, Except.error MMErr.moduleLoadError) =>
      if amem which m2.loaded_modules then
        ⟨addComm m2 which Reason.load_module_failed, HandlerRet.noneV, none⟩
      else ⟨m2, HandlerRet.noneV, some MMErr.keyError⟩
    | (m2, Except.error MMErr.moduleAlreadyLoaded) =>
      if amem which m2.loaded_modules then
        ⟨addComm m2 which Reason.load_module_failed, HandlerRet.noneV, none⟩
      else ⟨m2, HandlerRet.noneV, some MMErr.keyError⟩
    | (m2, Except.error e) => ⟨m2, HandlerRet.noneV, some e⟩
  | HandlerOp.unloadModuleOp inst =>
    match unload_module_by m inst which with
    | Except.ok m2 => ⟨m2, HandlerRet.noneV, none⟩
    | Except.error MMErr.moduleNotLoaded =>
      if amem which m.loaded_modules then
        ⟨addComm m which Reason.unload_module_failed, HandlerRet.noneV, none⟩
      else ⟨m, HandlerRet.noneV, some MMErr.keyError⟩
    | Except.error MMErr.cannotUnload =>
      if amem which m.loaded_modules then
        ⟨addComm m which Reason.unload_module_failed, HandlerRet.noneV, none⟩
      else ⟨m, HandlerRet.noneV, some MMErr.keyError⟩
    | Except.error e => ⟨m, HandlerRet.noneV, some e⟩
  | HandlerOp.installCustomHookOp h =>
    match install_custom_hook_by m h which with
    | Except.ok m2 => ⟨m2, HandlerRet.noneV, none⟩
    | Except.error _ =>
      if amem which m.loaded_modules then
        ⟨addComm m which Reason.install_hook_failed, HandlerRet.noneV, none⟩
      else ⟨m, HandlerRet.noneV, some MMErr.keyError⟩
  | HandlerOp.installCustomMethodOp name cb =>
    match install_custom_method_by m name cb which with
    | Except.ok m2 => ⟨m2, HandlerRet.noneV, none⟩
    | Except.error _ =>
      if amem which m.loaded_modules then
        ⟨addComm m which Reason.install_method_failed, HandlerRet.noneV, none⟩
      else ⟨m, HandlerRet.noneV, some MMErr.keyError⟩
  | HandlerOp.installInterruptHandlerOp k cb =>
    match install_interrupt_handler_by m k cb which with
    | Except.ok m2 => ⟨m2, HandlerRet.noneV, none⟩
    | Except.error _ =>
      if amem which m.loaded_modules then
        ⟨addComm m which Reason.install_interrupt_failed, HandlerRet.noneV, none⟩
      else ⟨m, HandlerRet.noneV, some MMErr.keyError⟩
  | HandlerOp.requireModuleInstanceOp inst =>
    if amem inst m.loaded_modules then ⟨m, HandlerRet.noneV, none⟩
    else ⟨m, HandlerRet.noneV, some MMErr.moduleLoadError⟩

/-- The candidate name which discovery skips. -/
def initCandidate : Name := "__init__".toList

mutual

/-- Translation of _module_discovery: skip the root candidate; resolve the
candidate through the environment (the candidate defers on its first requirement
not yet in the found table, succeeds when all requirements are met, or is broken
and only logged); then scan the deferral table as of loop entry, recursively
discovering every entry whose recorded dependency equals this candidate when the
candidate succeeded, and finally delete the retried entries.  The
discovery_active flag is true exactly while a candidate resolves, which the
deferral rule here already assumes. -/
def module_discovery_f (env : Env) : Nat → MMState → Name → MMState
  | 0, m, _ => m
  | fuel + 1, m, module =>
    if module = initCandidate then m
    else
      let att : MMState × Bool :=
        match env.discOutcome module with
        | DiscOutcome.broken => (m, false)
        | DiscOutcome.mod reqs cls =>
          match reqs.find? (fun r => !(amem r m.found_modules)) with
          | some r =>
            let newDef := ainsert module r m.deferred_discoveries
            ({ m with deferred_discoveries := newDef }, false)
          | none =>
            let newFound := ainsert cls.typeName cls m.found_modules
            ({ m with found_modules := newFound }, true)
      let scanned := discovery_scan env fuel module att.2 att.1.deferred_discoveries (att.1, [])
      scanned.2.foldl
        (fun st d => { st with deferred_discoveries := aerase d st.deferred_discoveries })
        scanned.1

/-- The deferral-retry loop of _module_discovery over a snapshot of the deferral
table, accumulating the list of retried entries to delete afterwards. -/
def discovery_scan (env : Env) : Nat → Name → Bool → List (Name × Name) →
    MMState × List Name → MMState × List Name
  | 0, _, _, _, st => st
  | _ + 1, _, _, [], st => st
  | fuel + 1, module, success, (d, dep) :: rest, (m, done) =>
    if dep = module ∧ success = true then
      discovery_scan env fuel module success rest (module_discovery_f env fuel m d, done ++ [d])
    else
      discovery_scan env fuel module success rest (m, done)

end

/-- Translation of discover_modules: run discovery over the caller-supplied
ordered candidate list; the entries still deferred afterwards form the
unresolved report. -/
def discover_modules_f (env : Env) (fuel : Nat) (m : MMState) (candidates : List Name) :
    MMState :=
  candidates.foldl (fun st c => module_discovery_f env fuel st c) m

/-- A fixed environment whose callbacks return false, whose scripts load, and
whose candidates are broken; used to instantiate theorems on concrete states. -/
def defaultEnv : Env :=
  ⟨fun _ _ => 0, fun _ => CbResult.ret false, fun _ => ScriptOutcome.loads,
   fun _ => DiscOutcome.broken⟩

/-- C6: every listed operation a loaded instance requests through the dispatch
entry point catches its specific failure inside the dispatcher and forwards it to
the calling instance as an asynchronous notification with the corresponding
reason, raising nothing to the caller; the sole operation whose failure
propagates synchronously is the require-instance precondition check, which
raises without notifying. -/
theorem claim_C6_dispatch_failures (env : Env) (fuel : Nat) (m : MMState) (which : Name)
    (hw : amem which m.loaded_modules = true) :
    (∀ name args, alookup name m.custom_methods = none →
      module_handler_f env fuel m which (HandlerOp.callCustomMethodOp name args) =
        ⟨addComm m which Reason.call_method_failed, HandlerRet.noneV, none⟩) ∧
    (∀ hk att, alookup hk m.custom_hooks = none →
      module_handler_f env fuel m which (HandlerOp.attachCustomHookOp hk att) =
        ⟨addComm m which Reason.attach_hook_failed, HandlerRet.noneV, none⟩) ∧
    (∀ hk att, alookup hk m.attached_hooks = none →
      module_handler_f env fuel m which (HandlerOp.attachManagerHookOp hk att) =
        ⟨addComm m which Reason.attach_hook_failed, HandlerRet.noneV, none⟩) ∧
    (∀ t kw, alookup t m.found_modules = none →
      module_handler_f env (fuel + 1) m which (HandlerOp.loadModuleOp t kw) =
        ⟨addComm m which Reason.load_module_failed, HandlerRet.noneV, none⟩) ∧
    (∀ i, alookup i m.loaded_modules = none →
      module_handler_f env fuel m which (HandlerOp.unloadModuleOp i) =
        ⟨addComm m which Reason.unload_module_failed, HandlerRet.noneV, none⟩) ∧
    (∀ i inst, alookup i m.loaded_modules = some inst → which ≠ inst.loadedBy →
      which ≠ modmanName →
      module_handler_f env fuel m which (HandlerOp.unloadModuleOp i) =
        ⟨addComm m which Reason.unload_module_failed, HandlerRet.noneV, none⟩) ∧
    (∀ hk, amem hk m.custom_hooks = true →
      module_handler_f env fuel m which (HandlerOp.installCustomHookOp hk) =
        ⟨addComm m which Reason.install_hook_failed, HandlerRet.noneV, none⟩) ∧
    (∀ nm cb, amem nm m.custom_methods = true →
      module_handler_f env fuel m which (HandlerOp.installCustomMethodOp nm cb) =
        ⟨addComm m which Reason.install_method_failed, HandlerRet.noneV, none⟩) ∧
    (∀ k cb, amem k m.external_interrupts = true →
      module_handler_f env fuel m which (HandlerOp.installInterruptHandlerOp k cb) =
        ⟨addComm m which Reason.install_interrupt_failed, HandlerRet.noneV, none⟩) ∧
    (∀ i, alookup i m.loaded_modules = none →
      module_handler_f env fuel m which (HandlerOp.requireModuleInstanceOp i) =
        ⟨m, HandlerRet.noneV, some MMErr.moduleLoadError⟩) := by
  refine ⟨?_, ?_, ?_, ?_, ?_, ?_, ?_, ?_, ?_, ?_⟩
  · intro name args h
    simp [module_handler_f, call_custom_method, h, hw]
  · intro hk att h
    simp [module_handler_f, attach_custom_hook_op, h, hw]
  · intro hk att h
    simp [module_handler_f, attach_manager_hook_op, h, hw]
  · intro t kw h
    simp [module_handler_f, load_module_f, h, hw]
  · intro i h
    simp [module_handler_f, unload_module_by, h, hw]
  · intro i inst h h1 h2
    simp [module_handler_f, unload_module_by, h, h1, h2, hw]
  · intro hk h
    simp [module_handler_f, install_custom_hook_by, h, hw]
  · intro nm cb h
    simp [module_handler_f, install_custom_method_by, h, hw]
  · intro k cb h
    simp [module_handler_f, install_interrupt_handler_by, h, hw]
  · intro i h
    simp [module_handler_f, amem, h]

/-- A small state for instantiating the dispatcher theorem: one loaded caller and
one installed custom hook. -/
def c6State : MMState :=
  { initial_state with
    loaded_modules := [("w".toList, ⟨"tw".toList, modmanName⟩)]
    custom_hooks := [("ch".toList, ⟨"w".toList, []⟩)] }

/-- Witness for C6: on c6State, an unknown-method call is converted to an
asynchronous notification with nothing raised, an unknown-hook install is
refused the same way, and the require-instance check raises synchronously. -/
theorem claim_C6_witness :
    (module_handler_f defaultEnv 3 c6State ("w".toList)
        (HandlerOp.callCustomMethodOp ("nope".toList) []) =
      ⟨addComm c6State ("w".toList) Reason.call_method_failed, HandlerRet.noneV, none⟩) ∧
    (module_handler_f defaultEnv 3 c6State ("w".toList)
        (HandlerOp.installCustomHookOp ("ch".toList)) =
      ⟨addComm c6State ("w".toList) Reason.install_hook_failed, HandlerRet.noneV, none⟩) ∧
    (module_handler_f defaultEnv 3 c6State ("w".toList)
        (HandlerOp.requireModuleInstanceOp ("ghost".toList)) =
      ⟨c6State, HandlerRet.noneV, some MMErr.moduleLoadError⟩) := by
  have h := claim_C6_dispatch_failures defaultEnv 3 c6State ("w".toList) (by decide)
  exact ⟨h.1 ("nope".toList) [] (by decide),
         h.2.2.2.2.2.2.1 ("ch".toList) (by decide),
         h.2.2.2.2.2.2.2.2.2 ("ghost".toList) (by decide)⟩

/-- An attachment whose triggered action is certain to fail or do nothing on the
given state: no action at all, a load whose class argument names an undiscovered
type (or whose argument is not a class object), or an unload whose argument
names an unloaded instance (or is not a string). -/
def harmlessAttachment (m : MMState) (a : HookAttacher) : Bool :=
  match a.action, a.argument with
  | HookAction.noAction, _ => true
  | HookAction.loadAction, HookArg.argCls c => !(amem c.typeName m.found_modules)
  | HookAction.loadAction, _ => true
  | HookAction.unloadAction, HookArg.argStr s => !(amem s m.loaded_modules)
  | HookAction.unloadAction, _ => true

/-- The events one attachment contributes to the trace during a fire in which its
action fails or does nothing: the callback invocation record, then an error log
when the callback raises or when its load or unload action fails. -/
def attachmentTraceEvents (env : Env) (a : HookAttacher) : List Event :=
  Event.cbInvoked a.callback ::
    (match env.cbBehavior a.callback with
     | CbResult.raises => [Event.errorLogged]
     | CbResult.ret false => []
     | CbResult.ret true =>
       match a.action with
       | HookAction.noAction => []
       | _ => [Event.errorLogged])

theorem load_module_f_unknown (env : Env) (fuel : Nat) (m : MMState) (t lb : Name)
    (kw : LoadKwargs) (h : alookup t m.found_modules = none) :
    ∃ e, load_module_f env fuel m t lb kw = (m, Except.error e) := by
  cases fuel with
  | zero => exact ⟨MMErr.fuelExhausted, rfl⟩
  | succ f => exact ⟨MMErr.moduleLoadError, by simp [load_module_f, h]⟩

theorem unload_module_by_not_loaded (m : MMState) (s r : Name)
    (h : alookup s m.loaded_modules = none) :
    unload_module_by m s r = Except.error MMErr.moduleNotLoaded := by
  simp [unload_module_by, h]

theorem trigger_from_spec (env : Env) :
    ∀ fuel (m : MMState) (hook_name : Name) (h : Hook) (kw : LoadKwargs) (idx : Nat),
    alookup hook_name m.custom_hooks = some h →
    (∀ a ∈ h.attached_callbacks, harmlessAttachment m a = true) →
    h.attached_callbacks.length - idx ≤ fuel →
    trigger_from_f env fuel m true hook_name kw idx =
      { m with trace := m.trace ++
        ((h.attached_callbacks.drop idx).map (attachmentTraceEvents env)).flatten } := by
  intro fuel
  induction fuel with
  | zero =>
    intro m hook_name h kw idx hh hharm hlen
    have hge : h.attached_callbacks.length ≤ idx := by omega
    rw [List.drop_eq_nil_of_le hge]
    simp [trigger_from_f]
  | succ f ih =>
    intro m hook_name h kw idx hh hharm hlen
    by_cases hidx : idx < h.attached_callbacks.length
    · have hsome : h.attached_callbacks[idx]? = some h.attached_callbacks[idx] :=
        List.getElem?_eq_getElem hidx
      have hmem : h.attached_callbacks[idx] ∈ h.attached_callbacks := List.getElem_mem hidx
      have hharma := hharm _ hmem
      have hdrop : h.attached_callbacks.drop idx
          = h.attached_callbacks[idx] :: h.attached_callbacks.drop (idx + 1) :=
        List.drop_eq_getElem_cons hidx
      set a := h.attached_callbacks[idx] with ha
      rw [hdrop]
      simp only [List.map_cons, List.flatten_cons]
      simp only [trigger_from_f, if_true, hh, hsome]
      have hfuel2 : h.attached_callbacks.length - (idx + 1) ≤ f := by omega
      have ihT : ∀ tr : List Event,
          trigger_from_f env f { m with trace := tr } true hook_name kw (idx + 1) =
            { m with trace := tr ++
              ((h.attached_callbacks.drop (idx + 1)).map (attachmentTraceEvents env)).flatten } :=
        fun tr => ih { m with trace := tr } hook_name h kw (idx + 1) hh hharm hfuel2
      cases hb : env.cbBehavior a.callback with
      | raises =>
        dsimp only
        rw [ihT _]
        simp [attachmentTraceEvents, hb, List.append_assoc]
      | ret b =>
        cases b with
        | false =>
          dsimp only
          rw [ihT _]
          simp [attachmentTraceEvents, hb, List.append_assoc]
        | true =>
          dsimp only
          cases hact : a.action with
          | noAction =>
            dsimp only
            rw [ihT _]
            simp [attachmentTraceEvents, hb, hact, List.append_assoc]
          | loadAction =>
            dsimp only
            cases harg : a.argument with
            | argCls c =>
              have hnone : alookup c.typeName m.found_modules = none := by
                rw [harmlessAttachment, hact, harg] at hharma
                cases he : alookup c.typeName m.found_modules with
                | none => rfl
                | some v =>
                  simp [amem, he] at hharma
              obtain ⟨e, he⟩ := load_module_f_unknown env f
                { m with trace := m.trace ++ [Event.cbInvoked a.callback] }
                c.typeName modmanName kw hnone
              dsimp only
              rw [he]
              dsimp only
              rw [ihT _]
              simp [attachmentTraceEvents, hb, hact, List.append_assoc]
            | argStr s =>
              dsimp only
              rw [ihT _]
              simp [attachmentTraceEvents, hb, hact, List.append_assoc]
            | argNone =>
              dsimp only
              rw [ihT _]
              simp [attachmentTraceEvents, hb, hact, List.append_assoc]
          | unloadAction =>
            dsimp only
            cases harg : a.argument with
            | argStr s =>
              have hnone : alookup s m.loaded_modules = none := by
                rw [harmlessAttachment, hact, harg] at hharma
                cases he : alookup s m.loaded_modules with
                | none => rfl
                | some v =>
                  simp [amem, he] at hharma
              dsimp only
              rw [unload_module_by_not_loaded
                { m with trace := m.trace ++ [Event.cbInvoked a.callback] } s modmanName hnone]
              dsimp only
              rw [ihT _]
              simp [attachmentTraceEvents, hb, hact, List.append_assoc]
            | argCls c =>
              rw [ihT _]
              simp [attachmentTraceEvents, hb, hact, List.append_assoc]
            | argNone =>
              rw [ihT _]
              simp [attachmentTraceEvents, hb, hact, List.append_assoc]
    · have hge : h.attached_callbacks.length ≤ idx := by omega
      have hnone : h.attached_callbacks[idx]? = none := by
        rw [List.getElem?_eq_none hge]
      rw [List.drop_eq_nil_of_le hge]
      simp [trigger_from_f, hh, hnone]

/-- C7: firing a hook attempts every attachment in attachment order, and an error
raised by the callback of one attachment, or by its triggered load or unload action,
is logged for that attachment and does not prevent the remaining attachments
from being invoked.  Stated for fires whose triggered actions fail or do
nothing, so that the attachment list itself is not mutated mid-iteration. -/
theorem claim_C7_hook_firing (env : Env) (fuel : Nat) (m : MMState) (hook_name : Name)
    (h : Hook) (kw : LoadKwargs)
    (hh : alookup hook_name m.custom_hooks = some h)
    (hharm : ∀ a ∈ h.attached_callbacks, harmlessAttachment m a = true)
    (hfuel : h.attached_callbacks.length ≤ fuel) :
    trigger_custom_hook_f env fuel m hook_name kw =
      { m with trace := m.trace ++
        (h.attached_callbacks.map (attachmentTraceEvents env)).flatten } := by
  have hs := trigger_from_spec env fuel m hook_name h kw 0 hh hharm (by omega)
  simpa [trigger_custom_hook_f] using hs

/-- Environment for the C7 witness: callback 1 raises, all others return false. -/
def c7Env : Env :=
  ⟨fun _ _ => 0,
   fun cb => if cb.fnId = 1 then CbResult.raises else CbResult.ret false,
   fun _ => ScriptOutcome.loads, fun _ => DiscOutcome.broken⟩

/-- The hook fired in the C7 witness: a raising callback attached first, a benign
one attached second. -/
def c7Hook : Hook :=
  ⟨modmanName, [⟨⟨"p".toList, 1⟩, HookAction.noAction, HookArg.argNone⟩,
                ⟨⟨"q".toList, 2⟩, HookAction.noAction, HookArg.argNone⟩]⟩

/-- State for the C7 witness. -/
def c7State : MMState :=
  { initial_state with custom_hooks := [("h".toList, c7Hook)] }

/-- Witness for C7: both callbacks are invoked in order even though the first
raises, and the error is logged for the first attachment only. -/
theorem claim_C7_witness :
    trigger_custom_hook_f c7Env 5 c7State ("h".toList) ⟨none, none⟩ =
      { c7State with trace := c7State.trace ++
        (c7Hook.attached_callbacks.map (attachmentTraceEvents c7Env)).flatten } :=
  claim_C7_hook_firing c7Env 5 c7State ("h".toList) c7Hook ⟨none, none⟩
    (by decide) (by decide) (by decide)

/-- Python dictionary assignment on the scripts table of the manager. -/
def addScript (l : List Name) (s : Name) : List Name :=
  if s ∈ l then l else l ++ [s]

/-- The deferred-script entries that a completed load of module_name with final
name instance_name satisfies, in table order: entries keyed by the loaded type
whose required instance is nonempty and matches the final name. -/
def satisfiedDeferredScripts (table : List (Name × List (Name × Name)))
    (module_name instance_name : Name) : List Name :=
  (table.map (fun e =>
    ((e.2.filter (fun s => deferredScriptMatches module_name instance_name e.1 s.2)).map
      (fun s => s.1)))).flatten

theorem foldl_discover_loads (env : Env) (hall : ∀ s, env.scriptOutcome s = ScriptOutcome.loads)
    (p : Name × Name → Bool) :
    ∀ (entries : List (Name × Name)) (m : MMState),
    entries.foldl (fun st e => if p e then discover_script env st e.1 else st) m =
      { m with scripts := ((entries.filter p).map (fun e => e.1)).foldl addScript m.scripts } := by
  intro entries
  induction entries with
  | nil => intro m; simp
  | cons e rest ih =>
    intro m
    simp only [List.foldl_cons]
    cases hp : p e with
    | true =>
      have hd : discover_script env m e.1 = { m with scripts := addScript m.scripts e.1 } := by
        simp [discover_script, hall e.1, addScript]
      rw [if_pos rfl]
      rw [hd, ih]
      simp [List.filter_cons, hp, addScript]
    | false =>
      rw [if_neg (by simp)]
      rw [ih]
      simp [List.filter_cons, hp]

theorem deferredScriptScan_loads (env : Env)
    (hall : ∀ s, env.scriptOutcome s = ScriptOutcome.loads) (T N : Name) :
    ∀ (table : List (Name × List (Name × Name))) (m : MMState),
    deferredScriptScan env T N table m =
      { m with scripts := (satisfiedDeferredScripts table T N).foldl addScript m.scripts } := by
  intro table
  induction table with
  | nil => intro m; simp [deferredScriptScan, satisfiedDeferredScripts]
  | cons e rest ih =>
    intro m
    obtain ⟨mod_name, entries⟩ := e
    simp only [deferredScriptScan]
    rw [foldl_discover_loads env hall _ entries m]
    rw [ih]
    simp [satisfiedDeferredScripts, List.foldl_append]

/-- Whether the named manager hook currently has no attachments (or is absent). -/
def managerHookEmpty (m : MMState) (hn : Name) : Bool :=
  match alookup hn m.attached_hooks with
  | none => true
  | some h => h.attached_callbacks.isEmpty

theorem trigger_manager_empty (env : Env) (m : MMState) (hn : Name)
    (hemp : managerHookEmpty m hn = true) (fuel : Nat) (kw : LoadKwargs) :
    trigger_from_f env fuel m false hn kw 0 = m := by
  cases fuel with
  | zero => rfl
  | succ f =>
    unfold trigger_from_f
    cases he : alookup hn m.attached_hooks with
    | none => simp [he]
    | some h =>
      unfold managerHookEmpty at hemp
      rw [he] at hemp
      have hemp2 : h.attached_callbacks.isEmpty = true := hemp
      have hnil : h.attached_callbacks = [] := List.isEmpty_iff.mp hemp2
      simp [he, hnil]

theorem alookup_eq_none_of_not_mem {V : Type} :
    ∀ (l : List (Name × V)) (k : Name), k ∉ akeys l → alookup k l = none := by
  intro l
  induction l with
  | nil => intro k _; rfl
  | cons a t ih =>
    intro k hk
    obtain ⟨a1, a2⟩ := a
    have hkeys : akeys ((a1, a2) :: t) = a1 :: akeys t := rfl
    rw [hkeys] at hk
    have h1 : a1 ≠ k := fun he => hk (he ▸ List.mem_cons_self a1 _)
    have h2 : k ∉ akeys t := fun hm => hk (List.mem_cons_of_mem a1 hm)
    rw [alookup_cons_ne a2 t h1]
    exact ih k h2

theorem ainsert_append {V : Type} :
    ∀ (l : List (Name × V)) (k : Name) (v : V),
    alookup k l = none → ainsert k v l = l ++ [(k, v)] := by
  intro l
  induction l with
  | nil => intro k v _; rfl
  | cons a t ih =>
    intro k v h
    obtain ⟨a1, a2⟩ := a
    by_cases he : a1 = k
    · rw [he, alookup_cons_self] at h
      simp at h
    · rw [alookup_cons_ne a2 t he] at h
      simp only [ainsert, if_neg he]
      rw [ih k v h]
      simp

theorem alookup_append_right {V : Type} :
    ∀ (l1 l2 : List (Name × V)) (k : Name),
    alookup k l1 = none → alookup k (l1 ++ l2) = alookup k l2 := by
  intro l1
  induction l1 with
  | nil => intro l2 k _; rfl
  | cons a t ih =>
    intro l2 k h
    obtain ⟨a1, a2⟩ := a
    by_cases he : a1 = k
    · rw [he, alookup_cons_self] at h
      simp at h
    · rw [alookup_cons_ne a2 t he] at h
      rw [List.cons_append, alookup_cons_ne a2 (t ++ l2) he]
      exact ih l2 k h

/-- C2 amended: on a load that takes the non-collision naming path, with every
script loading successfully on retry, the deferred-script table is left exactly
as it was (entries are never removed), and the scripts retried are exactly the
entries keyed by the loaded type whose required suffix is nonempty and matches
the final instance name (entries with an empty required suffix are never
retried), each retried once for this load event. -/
theorem claim_C2_deferred_script_retry (env : Env) (fuel : Nat) (m : MMState)
    (T lb : Name) (kw : LoadKwargs) (cls : ModClass)
    (hall : ∀ s, env.scriptOutcome s = ScriptOutcome.loads)
    (hfound : alookup T m.found_modules = some cls)
    (hsingle : typePresent m T = true → cls.capabilities.contains multiInstanceAllowed = true)
    (hbare : amem (requestedName T kw) m.loaded_modules = false)
    (hhook : managerHookEmpty m moduleLoadedHook = true) :
    load_module_f env (fuel + 1) m T lb kw =
      ({ m with
          loaded_modules := ainsert (requestedName T kw) ⟨T, lb⟩ m.loaded_modules
          scripts := (satisfiedDeferredScripts m.deferred_scripts T
            (requestedName T kw)).foldl addScript m.scripts },
        Except.ok (requestedName T kw)) := by
  have hcond : (typePresent m T && !(cls.capabilities.contains multiInstanceAllowed)) = false := by
    cases htp : typePresent m T with
    | false => rfl
    | true => rw [hsingle htp]; rfl
  unfold load_module_f
  rw [hfound]
  dsimp only
  rw [hcond, hbare]
  simp only [Bool.false_eq_true, if_false]
  rw [trigger_manager_empty env
    { m with loaded_modules := ainsert (requestedName T kw) ⟨T, lb⟩ m.loaded_modules }
    moduleLoadedHook hhook fuel ⟨some (requestedName T kw), none⟩]
  rw [deferredScriptScan_loads env hall T (requestedName T kw)]

/-- State for C2 instances: type T is discovered with the multi-instance
capability and no fixed suffix; two script entries wait on T, one with an empty
required suffix and one requiring instance x. -/
def c2State : MMState :=
  { initial_state with
    found_modules := [("T".toList, ⟨"T".toList, [multiInstanceAllowed], none⟩)]
    deferred_scripts := [("T".toList, [("a".toList, []), ("b".toList, "x".toList)])] }

/-- State for the collision-path part of the C2 counterexample: an instance named
T is already loaded and a script entry requires instance 1 of T. -/
def c2bState : MMState :=
  { c2State with
    loaded_modules := [("T".toList, ⟨"T".toList, modmanName⟩)]
    deferred_scripts := [("T".toList, [("c".toList, "1".toList)])] }

/-- Witness for C2 amended: loading T as instance T-x on c2State retries exactly
the nonempty-suffix entry b and leaves the deferred table unchanged. -/
theorem claim_C2_witness :
    load_module_f defaultEnv 3 c2State ("T".toList) modmanName
        ⟨some ("T-x".toList), none⟩ =
      ({ c2State with
          loaded_modules := ainsert ("T-x".toList) ⟨"T".toList, modmanName⟩
            c2State.loaded_modules
          scripts := (satisfiedDeferredScripts c2State.deferred_scripts ("T".toList)
            ("T-x".toList)).foldl addScript c2State.scripts },
        Except.ok ("T-x".toList)) := by
  have h := claim_C2_deferred_script_retry defaultEnv 2 c2State ("T".toList) modmanName
    ⟨some ("T-x".toList), none⟩ ⟨"T".toList, [multiInstanceAllowed], none⟩
    (fun _ => rfl) (by decide) (by decide) (by decide) (by decide)
  exact h

/-- C2 as stated is false on c2State and c2bState: the empty-suffix entry a is
never retried although any load of T satisfies it, the satisfied entry b is
retried but never removed from the deferred table, and on the collision naming
path the satisfied entry c is not even examined. -/
theorem claim_C2_counterexample :
    ((load_module_f defaultEnv 5 c2State ("T".toList) modmanName
        ⟨some ("T-x".toList), none⟩).1.scripts = ["b".toList]) ∧
    ((load_module_f defaultEnv 5 c2State ("T".toList) modmanName
        ⟨some ("T-x".toList), none⟩).1.deferred_scripts
      = [("T".toList, [("a".toList, []), ("b".toList, "x".toList)])]) ∧
    ((load_module_f defaultEnv 5 c2State ("T".toList) modmanName
        ⟨some ("T-x".toList), none⟩).2.toOption = some ("T-x".toList)) ∧
    ((load_module_f defaultEnv 5 c2bState ("T".toList) modmanName
        ⟨none, none⟩).1.scripts = []) ∧
    ((load_module_f defaultEnv 5 c2bState ("T".toList) modmanName
        ⟨none, none⟩).1.deferred_scripts = [("T".toList, [("c".toList, "1".toList)])]) ∧
    ((load_module_f defaultEnv 5 c2bState ("T".toList) modmanName
        ⟨none, none⟩).2.toOption = some ("T-1".toList)) := by
  refine ⟨by decide, by decide, by decide, by decide, by decide, by decide⟩

theorem alookup_append_left {V : Type} :
    ∀ (l1 l2 : List (Name × V)) (k : Name) (v : V),
    alookup k l1 = some v → alookup k (l1 ++ l2) = some v := by
  intro l1
  induction l1 with
  | nil => intro l2 k v h; simp [alookup] at h
  | cons a t ih =>
    intro l2 k v h
    obtain ⟨a1, a2⟩ := a
    by_cases he : a1 = k
    · subst he
      rw [alookup_cons_self] at h
      rw [List.cons_append, alookup_cons_self]
      exact h
    · rw [alookup_cons_ne a2 t he] at h
      rw [List.cons_append, alookup_cons_ne a2 (t ++ l2) he]
      exact ih l2 k v h

theorem load_module_bare_spec (env : Env) (fuel : Nat) (m : MMState)
    (T lb : Name) (kw : LoadKwargs) (cls : ModClass)
    (hall : ∀ s, env.scriptOutcome s = ScriptOutcome.loads)
    (hfound : alookup T m.found_modules = some cls)
    (hsingle : typePresent m T = true → cls.capabilities.contains multiInstanceAllowed = true)
    (hbare : amem (requestedName T kw) m.loaded_modules = false)
    (hhook : managerHookEmpty m moduleLoadedHook = true) :
    load_module_f env (fuel + 1) m T lb kw =
      ({ m with
          loaded_modules := ainsert (requestedName T kw) ⟨T, lb⟩ m.loaded_modules
          scripts := (satisfiedDeferredScripts m.deferred_scripts T
            (requestedName T kw)).foldl addScript m.scripts },
        Except.ok (requestedName T kw)) := by
  have hcond : (typePresent m T && !(cls.capabilities.contains multiInstanceAllowed)) = false := by
    cases htp : typePresent m T with
    | false => rfl
    | true => rw [hsingle htp]; rfl
  unfold load_module_f
  rw [hfound]
  dsimp only
  rw [hcond, hbare]
  simp only [Bool.false_eq_true, if_false]
  rw [trigger_manager_empty env
    { m with loaded_modules := ainsert (requestedName T kw) ⟨T, lb⟩ m.loaded_modules }
    moduleLoadedHook hhook fuel ⟨some (requestedName T kw), none⟩]
  rw [deferredScriptScan_loads env hall T (requestedName T kw)]

theorem load_module_collision_spec (env : Env) (fuel : Nat) (m : MMState)
    (T lb : Name) (cls : ModClass)
    (hfound : alookup T m.found_modules = some cls)
    (hmulti : cls.capabilities.contains multiInstanceAllowed = true)
    (hsuffix : cls.multiInstSuffix = none)
    (hcol : amem T m.loaded_modules = true)
    (hhook : managerHookEmpty m moduleLoadedHook = true) :
    load_module_f env (fuel + 1) m T lb ⟨none, none⟩ =
      ({ m with loaded_modules := ainsert (T ++ '-' :: natToChars (handle_multiple_instance T (akeys m.loaded_modules))) ⟨T, lb⟩ m.loaded_modules },
        Except.ok (T ++ '-' :: natToChars (handle_multiple_instance T (akeys m.loaded_modules)))) := by
  have hreq : requestedName T (⟨none, none⟩ : LoadKwargs) = T := by
    simp [requestedName]
  have hcond : (typePresent m T && !(cls.capabilities.contains multiInstanceAllowed)) = false := by
    rw [hmulti]; simp
  unfold load_module_f
  rw [hfound]
  dsimp only
  rw [hreq, hcond, hcol]
  simp only [Bool.false_eq_true, if_false, if_true]
  rw [hsuffix]
  dsimp only
  rw [trigger_manager_empty env
    { m with loaded_modules := ainsert (T ++ '-' :: natToChars (handle_multiple_instance T (akeys m.loaded_modules))) ⟨T, lb⟩ m.loaded_modules }
    moduleLoadedHook hhook fuel
    ⟨some (T ++ '-' :: natToChars (handle_multiple_instance T (akeys m.loaded_modules))), none⟩]

/-- C4 amended: for a multi-instance type with no fixed suffix rule, three loads
with no explicit instance name yield the names T, T-1, T-2; and in general the
appended numeric suffix is the smallest integer greater than the maximum suffix
among loaded names that start with base, a dash and digits (a prefix match:
trailing text after the digit run is ignored), or 1 if no such name exists. -/
theorem claim_C4_multi_instance_naming (env : Env) (fuel : Nat) (m : MMState)
    (T lb : Name) (cls : ModClass)
    (hfound : alookup T m.found_modules = some cls)
    (hmulti : cls.capabilities.contains multiInstanceAllowed = true)
    (hsuffix : cls.multiInstSuffix = none)
    (hnames : ∀ name ∈ akeys m.loaded_modules, name ≠ T ∧ matchSuffix T name = none)
    (hds : m.deferred_scripts = [])
    (hall : ∀ s, env.scriptOutcome s = ScriptOutcome.loads)
    (hhook : managerHookEmpty m moduleLoadedHook = true) :
    (∃ m1 m2 m3,
      load_module_f env (fuel + 1) m T lb ⟨none, none⟩ = (m1, Except.ok T) ∧
      load_module_f env (fuel + 1) m1 T lb ⟨none, none⟩
        = (m2, Except.ok (T ++ '-' :: natToChars 1)) ∧
      load_module_f env (fuel + 1) m2 T lb ⟨none, none⟩
        = (m3, Except.ok (T ++ '-' :: natToChars 2))) ∧
    (∀ base loaded, handle_multiple_instance base loaded
      = spec_suffix_rule_regex base loaded) := by
  constructor
  · have hreq : requestedName T (⟨none, none⟩ : LoadKwargs) = T := by
      simp [requestedName]
    have hTnotin : T ∉ akeys m.loaded_modules := fun hmem => (hnames T hmem).1 rfl
    have hTnone : alookup T m.loaded_modules = none :=
      alookup_eq_none_of_not_mem m.loaded_modules T hTnotin
    -- first load: plain branch, instance named T
    have h1 := load_module_bare_spec env fuel m T lb ⟨none, none⟩ cls hall hfound
      (fun _ => hmulti) (by rw [hreq, amem, hTnone]; rfl) hhook
    rw [hreq] at h1
    rw [hds] at h1
    set v : ModInstance := ⟨T, lb⟩
    have hins1 : ainsert T v m.loaded_modules = m.loaded_modules ++ [(T, v)] :=
      ainsert_append m.loaded_modules T v hTnone
    rw [hins1] at h1
    set m1 : MMState := { m with
      loaded_modules := m.loaded_modules ++ [(T, v)]
      scripts := (satisfiedDeferredScripts [] T T).foldl addScript m.scripts
      deferred_scripts := [] } with hm1
    -- second load: collision branch, suffix 1
    have hkeys1 : akeys m1.loaded_modules = akeys m.loaded_modules ++ [T] := by
      simp [hm1, akeys]
    have hcol1 : amem T m1.loaded_modules = true := by
      have : alookup T m1.loaded_modules = some v := by
        show alookup T (m.loaded_modules ++ [(T, v)]) = some v
        rw [alookup_append_right m.loaded_modules [(T, v)] T hTnone, alookup_cons_self]
      rw [amem, this]; rfl
    have hfm1 : (akeys m.loaded_modules).filterMap (matchSuffix T) = [] := by
      rw [List.filterMap_eq_nil_iff]
      intro a ha
      exact (hnames a ha).2
    have hh1 : handle_multiple_instance T (akeys m1.loaded_modules) = 1 := by
      rw [hkeys1]
      unfold handle_multiple_instance
      rw [List.filterMap_append, hfm1]
      simp [matchSuffix_self]
    have h2 := load_module_collision_spec env fuel m1 T lb cls hfound hmulti hsuffix hcol1 hhook
    rw [hh1] at h2
    have hT1none : alookup (T ++ '-' :: natToChars 1) m1.loaded_modules = none := by
      have hn1 : alookup (T ++ '-' :: natToChars 1) m.loaded_modules = none := by
        apply alookup_eq_none_of_not_mem
        intro hmem
        have hcontra := (hnames _ hmem).2
        rw [matchSuffix_append T 1] at hcontra
        simp at hcontra
      show alookup (T ++ '-' :: natToChars 1) (m.loaded_modules ++ [(T, v)]) = none
      rw [alookup_append_right m.loaded_modules [(T, v)] _ hn1]
      rw [alookup_cons_ne v [] (append_digits_ne_base T 1).symm]
      rfl
    have hins2 : ainsert (T ++ '-' :: natToChars 1) v m1.loaded_modules
        = m1.loaded_modules ++ [(T ++ '-' :: natToChars 1, v)] :=
      ainsert_append m1.loaded_modules _ v hT1none
    rw [hins2] at h2
    set m2 : MMState := { m1 with
      loaded_modules := m1.loaded_modules ++ [(T ++ '-' :: natToChars 1, v)] } with hm2
    -- third load: collision branch, suffix 2
    have hkeys2 : akeys m2.loaded_modules = (akeys m.loaded_modules ++ [T])
        ++ [T ++ '-' :: natToChars 1] := by
      simp [hm2, hm1, akeys]
    have hcol2 : amem T m2.loaded_modules = true := by
      have : alookup T m2.loaded_modules = some v := by
        show alookup T ((m.loaded_modules ++ [(T, v)]) ++ [(T ++ '-' :: natToChars 1, v)])
          = some v
        apply alookup_append_left
        rw [alookup_append_right m.loaded_modules [(T, v)] T hTnone, alookup_cons_self]
      rw [amem, this]; rfl
    have hh2 : handle_multiple_instance T (akeys m2.loaded_modules) = 2 := by
      rw [hkeys2]
      unfold handle_multiple_instance
      rw [List.filterMap_append, List.filterMap_append, hfm1]
      simp [matchSuffix_self, matchSuffix_append]
    have h3 := load_module_collision_spec env fuel m2 T lb cls hfound hmulti hsuffix hcol2 hhook
    rw [hh2] at h3
    exact ⟨m1, m2, _, h1, h2, h3⟩
  · exact handle_multiple_instance_eq_spec_regex

/-- State for the C4 witness: a multi-instance type T is discovered, nothing is
loaded. -/
def c4wState : MMState :=
  { initial_state with
    found_modules := [("T".toList, ⟨"T".toList, [multiInstanceAllowed], none⟩)] }

/-- Witness for C4 amended: on c4wState the three default-named loads of T are
named T, T-1 and T-2, and the suffix rule agrees with the prefix-match reading
on a concrete list. -/
theorem claim_C4_witness :
    (∃ m1 m2 m3,
      load_module_f defaultEnv 3 c4wState ("T".toList) modmanName ⟨none, none⟩
        = (m1, Except.ok ("T".toList)) ∧
      load_module_f defaultEnv 3 m1 ("T".toList) modmanName ⟨none, none⟩
        = (m2, Except.ok ("T".toList ++ '-' :: natToChars 1)) ∧
      load_module_f defaultEnv 3 m2 ("T".toList) modmanName ⟨none, none⟩
        = (m3, Except.ok ("T".toList ++ '-' :: natToChars 2))) ∧
    handle_multiple_instance ("T".toList) ["T".toList, "T-3".toList]
      = spec_suffix_rule_regex ("T".toList) ["T".toList, "T-3".toList] := by
  have h := claim_C4_multi_instance_naming defaultEnv 2 c4wState ("T".toList) modmanName
    ⟨"T".toList, [multiInstanceAllowed], none⟩ (by decide) (by decide) rfl
    (by decide) rfl (fun _ => rfl) (by decide)
  exact ⟨h.1, h.2 ("T".toList) ["T".toList, "T-3".toList]⟩

/-- State for the C4 counterexample: type T discovered, instances named T and
T-5x loaded (the latter an explicit instance name). -/
def c4State : MMState :=
  { initial_state with
    found_modules := [("T".toList, ⟨"T".toList, [multiInstanceAllowed], none⟩)]
    loaded_modules := [("T".toList, ⟨"T".toList, modmanName⟩),
                       ("T-5x".toList, ⟨"x".toList, modmanName⟩)] }

/-- C4 as stated is false: with loaded names T and T-5x, no loaded name matches
base-digits in full, so the stated rule demands suffix 1, but the code counts
the prefix match T-5 and produces suffix 6; a default-named load of T is
registered as T-6. -/
theorem claim_C4_counterexample :
    handle_multiple_instance ("T".toList) ["T".toList, "T-5x".toList] = 6 ∧
    spec_suffix_rule ("T".toList) ["T".toList, "T-5x".toList] = 1 ∧
    (6 : Nat) ≠ 1 ∧
    (load_module_f defaultEnv 5 c4State ("T".toList) modmanName ⟨none, none⟩).2.toOption
      = some ("T-6".toList) := by
  refine ⟨by decide, by decide, by decide, by decide⟩

/-- C3: in one discovery pass over an ordered candidate list, a candidate C that
defers on type B, and B that defers on type A, are both registered once A is
discovered later in the same pass (transitive, depth-first resolution through the
recursive retry of deferred entries), and the deferral table ends empty; if the
required type A never appears in the pass, the dependent candidate B stays
unregistered and remains in the unresolved deferral report with its recorded
dependency. -/
theorem claim_C3_discovery_deferral (env : Env) (A B C : Name)
    (clsA clsB clsC : ModClass)
    (hAB : A ≠ B) (hAC : A ≠ C) (hBC : B ≠ C)
    (hiA : A ≠ initCandidate) (hiB : B ≠ initCandidate) (hiC : C ≠ initCandidate)
    (hEA : env.discOutcome A = DiscOutcome.mod [] clsA)
    (hEB : env.discOutcome B = DiscOutcome.mod [A] clsB)
    (hEC : env.discOutcome C = DiscOutcome.mod [B] clsC)
    (htA : clsA.typeName = A) (htB : clsB.typeName = B) (htC : clsC.typeName = C) :
    ((discover_modules_f env 9 initial_state [C, B, A]).found_modules
        = [(A, clsA), (B, clsB), (C, clsC)] ∧
      (discover_modules_f env 9 initial_state [C, B, A]).deferred_discoveries = []) ∧
    ((discover_modules_f env 9 initial_state [B]).found_modules = [] ∧
      (discover_modules_f env 9 initial_state [B]).deferred_discoveries = [(B, A)]) := by
  have hBA : B ≠ A := hAB.symm
  have hCA : C ≠ A := hAC.symm
  have hCB : C ≠ B := hBC.symm
  constructor
  · constructor <;>
      simp [discover_modules_f, module_discovery_f, discovery_scan, hiA, hiB, hiC,
            hEA, hEB, hEC, htA, htB, htC, hAB, hAC, hBC, hBA, hCA, hCB,
            amem, alookup, ainsert, aerase, initial_state]
  · constructor <;>
      simp [discover_modules_f, module_discovery_f, discovery_scan, hiA, hiB, hiC,
            hEA, hEB, hEC, htA, htB, htC, hAB, hAC, hBC, hBA, hCA, hCB,
            amem, alookup, ainsert, aerase, initial_state]

/-- Environment for the C3 witness: candidate a has no requirements, b requires
type a, c requires type b, all other candidates are broken. -/
def c3Env : Env :=
  ⟨fun _ _ => 0, fun _ => CbResult.ret false, fun _ => ScriptOutcome.loads,
   fun n =>
     if n = "a".toList then DiscOutcome.mod [] ⟨"a".toList, [], none⟩
     else if n = "b".toList then DiscOutcome.mod ["a".toList] ⟨"b".toList, [], none⟩
     else if n = "c".toList then DiscOutcome.mod ["b".toList] ⟨"c".toList, [], none⟩
     else DiscOutcome.broken⟩

/-- Witness for C3 with the concrete chain c requires b requires a. -/
theorem claim_C3_witness :
    (((discover_modules_f c3Env 9 initial_state
        ["c".toList, "b".toList, "a".toList]).found_modules
      = [("a".toList, ⟨"a".toList, [], none⟩), ("b".toList, ⟨"b".toList, [], none⟩),
         ("c".toList, ⟨"c".toList, [], none⟩)] ∧
      (discover_modules_f c3Env 9 initial_state
        ["c".toList, "b".toList, "a".toList]).deferred_discoveries = []) ∧
    ((discover_modules_f c3Env 9 initial_state ["b".toList]).found_modules = [] ∧
      (discover_modules_f c3Env 9 initial_state ["b".toList]).deferred_discoveries
        = [("b".toList, "a".toList)])) :=
  claim_C3_discovery_deferral c3Env ("a".toList) ("b".toList) ("c".toList)
    ⟨"a".toList, [], none⟩ ⟨"b".toList, [], none⟩ ⟨"c".toList, [], none⟩
    (by decide) (by decide) (by decide) (by decide) (by decide) (by decide)
    (by decide) (by decide) (by decide) rfl rfl rfl

/-- Witness for C1 amended on c1State: unloading x as the manager yields exactly
the filtered tables and the notification list computed from the pre-unload
state. -/
theorem claim_C1_witness :
    unload_module_by c1State ("x".toList) modmanName = Except.ok { c1State with
      custom_hooks := (c1State.custom_hooks.filter (fun p => ! (p.2.owner == "x".toList))).map
        (fun p => (p.1, Hook.detachArgument ("x".toList) p.2))
      custom_methods := c1State.custom_methods.filter (fun p => ! (p.2.owner == "x".toList))
      external_interrupts := c1State.external_interrupts.filter
        (fun p => ! (p.2.owner == "x".toList))
      attached_hooks := c1State.attached_hooks.map
        (fun p => (p.1, Hook.detachArgument ("x".toList) p.2))
      loaded_modules := aerase ("x".toList) c1State.loaded_modules
      trace := c1State.trace ++
        ((c1State.custom_hooks.filter (fun p => p.2.owner == "x".toList)).map
          (fun q => notifyHook c1State.loaded_modules q.2)).flatten } :=
  claim_C1_unload_cascade c1State ("x".toList) ⟨"tx".toList, modmanName⟩
    (by decide) (by decide) (by decide) (by decide)

end Viscum
